import Mathlib

/-!
# OpenSRF prefork pool: a shallow embedding

The parent side of `src/libopensrf/osrf_prefork.c` is embedded as functions on a
record holding the `prefork_simple` fields, the heap of `prefork_child` records its
pointers refer to, and a script of the answers the operating system will give
(`pipe`, `fork`, `write`, `waitpid`, `select`, the `child_dead` flag, `client_recv`).
Pointers are heap addresses; `NULL` is `none`.  A function that does not return
normally yields a `Fault`.
-/

namespace OpenSRF

/-! ## Constants -/

def READ_BUFSIZE : Nat := 1024

def ABS_MAX_CHILDREN : Int := 256

/-! ## Data model -/

/-- Ways in which a modelled function fails to return to its caller. -/
inductive Fault where
  /-- A NULL or dangling `prefork_child*` was dereferenced. -/
  | null_deref
  /-- A pointer walk did not finish within the number of steps that any walk over
  a heap of this size needs unless it revisits a node. -/
  | diverges
  /-- The environment script ran out while the C code was still asking for more. -/
  | script_end
  /-- `j++` would pass `INT_MAX`. -/
  | overflow
  /-- Function `fork()` returned 0: this is the drone, which never returns to pool code. -/
  | in_child
  deriving DecidableEq, Repr

/-- Pointer to a `prefork_child`: a heap address, or NULL. -/
abbrev Ptr := Option Nat

/-- The C `struct prefork_child_struct`. -/
structure prefork_child where
  pid : Int
  read_data_fd : Int
  write_data_fd : Int
  read_status_fd : Int
  write_status_fd : Int
  max_requests : Int
  appname : Option String
  keepalive : Int
  next : Ptr
  prev : Ptr
  deriving DecidableEq, Repr

/-- What one call of `launch_child` meets in `pipe()`, `pipe()`, `fork()`. -/
inductive SpawnResult where
  /-- The first `pipe(data_fd)` returned a negative value. -/
  | data_pipe_error
  /-- The data pipe was made (`d0`, `d1`), then `pipe(status_fd)` failed. -/
  | status_pipe_error (d0 d1 : Int)
  /-- Both pipes were made and `fork()` returned `pid` (negative on error). -/
  | forked (d0 d1 s0 s1 : Int) (pid : Int)
  deriving DecidableEq, Repr

/-- What `client_recv` hands to `prefork_run`. -/
inductive RecvResult where
  /-- A NULL message (error, or interrupted by a signal). -/
  | no_message
  /-- A message whose `msg_xml` is NULL. -/
  | null_xml
  /-- A message whose `msg_xml` is the given C string (bytes before the NUL). -/
  | xml (msg_data : List Nat)
  deriving DecidableEq, Repr

/-- Observable system calls made by the parent, in the order they are made. -/
inductive Event where
  | launch
  | kill (pid : Int)
  | close (fd : Int)
  | write (fd : Int) (bytes : List Nat) (ret : Int)
  | read (fd : Int)
  | recv
  deriving DecidableEq, Repr

/-- The C `prefork_simple` (fields `max_requests` .. `free_list`), the heap its pointers
refer to, the script of answers of the environment, and the log of system calls. -/
structure prefork_simple where
  max_requests : Int
  min_children : Int
  max_children : Int
  current_num_children : Int
  keepalive : Int
  appname : Option String
  first_child : Ptr
  idle_list : Ptr
  free_list : Ptr
  /-- Every `prefork_child` obtained from `safe_malloc`, by address. -/
  heap : List prefork_child
  /-- Outcomes of the successive `launch_child` calls. -/
  spawns : List SpawnResult
  /-- Return values of the successive `write()` calls on request pipes. -/
  writes : List Int
  /-- Return values of the successive `waitpid(-1, NULL, WNOHANG)` calls. -/
  waits : List Int
  /-- For each `select()`: its return value and the descriptors it reports readable. -/
  selects : List (Int × List Int)
  /-- Value of `child_dead` seen by each successive `if( child_dead )`. -/
  deads : List Bool
  /-- Results of the successive `client_recv` calls. -/
  recvs : List RecvResult
  events : List Event
  deriving Repr

/-! ## Heap access -/

/-- Read `*p`. -/
def deref (f : prefork_simple) (p : Ptr) : Except Fault prefork_child :=
  match p with
  | none => .error .null_deref
  | some a =>
    match f.heap[a]? with
    | none => .error .null_deref
    | some c => .ok c

/-- Assign `*p = c`. -/
def store (f : prefork_simple) (p : Ptr) (c : prefork_child) : Except Fault prefork_simple :=
  match p with
  | none => .error .null_deref
  | some a =>
    if a < f.heap.length then .ok { f with heap := f.heap.set a c }
    else .error .null_deref

/-- Assign `p->next = v`. -/
def set_next (f : prefork_simple) (p : Ptr) (v : Ptr) : Except Fault prefork_simple := do
  let c ← deref f p
  store f p { c with next := v }

/-- Assign `p->prev = v`. -/
def set_prev (f : prefork_simple) (p : Ptr) (v : Ptr) : Except Fault prefork_simple := do
  let c ← deref f p
  store f p { c with prev := v }

def log (f : prefork_simple) (e : Event) : prefork_simple :=
  { f with events := f.events ++ [e] }

/-! ## Pool operations of the parent -/

/-- Source `prefork_simple_init`: returns 1 on invalid bounds, else fills the struct. -/
def prefork_simple_init (prefork : prefork_simple)
    (max_requests min_children max_children : Int) : Int × prefork_simple :=
  if min_children > max_children then (1, prefork)
  else if max_children > ABS_MAX_CHILDREN then (1, prefork)
  else
    (0, { prefork with
            max_requests := max_requests
            min_children := min_children
            max_children := max_children
            current_num_children := 0
            keepalive := 0
            appname := none
            first_child := none
            idle_list := none
            free_list := none })

/-- Source `prefork_child_init`: take a record from the free list, or from the heap. -/
def prefork_child_init (forker : prefork_simple)
    (read_data_fd write_data_fd read_status_fd write_status_fd : Int) :
    Except Fault (Ptr × prefork_simple) :=
  let fresh : prefork_child :=
    { pid := 0
      read_data_fd := read_data_fd
      write_data_fd := write_data_fd
      read_status_fd := read_status_fd
      write_status_fd := write_status_fd
      max_requests := forker.max_requests
      appname := forker.appname
      keepalive := forker.keepalive
      next := none
      prev := none }
  match forker.free_list with
  | some a => do
    let c ← deref forker (some a)
    let forker := { forker with free_list := c.next }
    let forker ← store forker (some a) fresh
    pure (some a, forker)
  | none =>
    .ok (some forker.heap.length, { forker with heap := forker.heap ++ [fresh] })

/-- Source `prefork_child_free`: close the four descriptors, push onto the free list. -/
def prefork_child_free (forker : prefork_simple) (child : Ptr) :
    Except Fault prefork_simple := do
  let c ← deref forker child
  let forker := log forker (.close c.read_data_fd)
  let forker := log forker (.close c.write_data_fd)
  let forker := log forker (.close c.read_status_fd)
  let forker := log forker (.close c.write_status_fd)
  let forker ← store forker child { c with prev := none, next := forker.free_list }
  pure { forker with free_list := child }

/-- Source `launch_child`, as seen by the parent.  Returns the new child or NULL. -/
def launch_child (forker : prefork_simple) : Except Fault (Ptr × prefork_simple) :=
  match forker.spawns with
  | [] => .error .script_end
  | r :: rest =>
    let forker := log { forker with spawns := rest } .launch
    match r with
    | .data_pipe_error => .ok (none, forker)
    | .status_pipe_error d0 d1 =>
      .ok (none, log (log forker (.close d1)) (.close d0))
    | .forked d0 d1 s0 s1 pid => do
      let (child, forker) ← prefork_child_init forker d0 d1 s0 s1
      if pid < 0 then
        let forker ← prefork_child_free forker child
        pure (none, forker)
      else
        -- Add the new child to the head of the idle list
        let forker ← set_next forker child forker.idle_list
        let forker := { forker with idle_list := child }
        if pid > 0 then
          let forker :=
            { forker with current_num_children := forker.current_num_children + 1 }
          let c ← deref forker child
          let forker ← store forker child { c with pid := pid }
          pure (child, forker)
        else
          .error .in_child

/-- Loop of `prefork_launch_children`: `while( c++ < forker->min_children )`. -/
def prefork_launch_children_loop : Nat → prefork_simple → Except Fault prefork_simple
  | 0, forker => .ok forker
  | n + 1, forker => do
    let (_, forker) ← launch_child forker
    prefork_launch_children_loop n forker

/-- Source `prefork_launch_children`. -/
def prefork_launch_children (forker : prefork_simple) : Except Fault prefork_simple :=
  prefork_launch_children_loop forker.min_children.toNat forker

/-- Source `add_prefork_child`: append at the tail of the active ring. -/
def add_prefork_child (forker : prefork_simple) (child : Ptr) :
    Except Fault prefork_simple :=
  match forker.first_child with
  | none => do
    let forker := { forker with first_child := child }
    let forker ← set_next forker child child
    set_prev forker child child
  | some a => do
    let first ← deref forker (some a)
    let last_child := first.prev
    let forker ← set_next forker last_child child
    let forker ← set_prev forker child last_child
    let forker ← set_next forker child forker.first_child
    set_prev forker forker.first_child child

/-- The search loop of `del_prefork_child` over the active ring:
`while( cur_child->pid != pid && cur_child->next != forker->first_child )`. -/
def find_in_ring (forker : prefork_simple) (pid : Int) :
    Nat → Ptr → Except Fault Ptr
  | 0, _ => .error .diverges
  | n + 1, cur_child => do
    let c ← deref forker cur_child
    if c.pid ≠ pid ∧ c.next ≠ forker.first_child then
      find_in_ring forker pid n c.next
    else
      pure cur_child

/-- The search loop of `del_prefork_child` over the idle list:
`while( cur_child && cur_child->pid != pid )`; yields `(prev, cur_child)`. -/
def find_in_idle (forker : prefork_simple) (pid : Int) :
    Nat → Ptr → Ptr → Except Fault (Ptr × Ptr)
  | 0, _, _ => .error .diverges
  | n + 1, prev, cur_child =>
    match cur_child with
    | none => .ok (prev, none)
    | some a => do
      let c ← deref forker (some a)
      if c.pid ≠ pid then
        find_in_idle forker pid n (some a) c.next
      else
        pure (prev, some a)

/-- Source `del_prefork_child`. -/
def del_prefork_child (forker : prefork_simple) (pid : Int) :
    Except Fault prefork_simple :=
  match forker.first_child with
  | none => .ok forker   -- Empty list; bail out.
  | some _ => do
    let cur_child ← find_in_ring forker pid (forker.heap.length + 1) forker.first_child
    let c ← deref forker cur_child
    if c.pid = pid then
      if c.next = cur_child then
        let forker := { forker with first_child := none }
        prefork_child_free forker cur_child
      else
        let forker :=
          if forker.first_child = cur_child then { forker with first_child := c.next }
          else forker
        -- Stitch the nodes on either side together
        let forker ← set_next forker c.prev c.next
        let c ← deref forker cur_child
        let forker ← set_prev forker c.next c.prev
        prefork_child_free forker cur_child
    else
      let (prev, cur_child) ←
        find_in_idle forker pid (forker.heap.length + 2) none forker.idle_list
      match cur_child with
      | none => pure forker
      | some a =>
        let c ← deref forker (some a)
        let forker ←
          match prev with
          | some b => set_next forker (some b) c.next
          | none => pure { forker with idle_list := c.next }
        prefork_child_free forker (some a)

/-- First loop of `reap_children`: `while( (child_pid = waitpid(...)) > 0 )`. -/
def reap_bury : Nat → prefork_simple → Except Fault prefork_simple
  | 0, _ => .error .script_end
  | n + 1, forker =>
    match forker.waits with
    | [] => .error .script_end
    | child_pid :: rest =>
      let forker := { forker with waits := rest }
      if child_pid > 0 then do
        let forker :=
          { forker with current_num_children := forker.current_num_children - 1 }
        let forker ← del_prefork_child forker child_pid
        reap_bury n forker
      else
        .ok forker

/-- Second loop of `reap_children`:
`while( forker->current_num_children < forker->min_children ) launch_child( forker );` -/
def reap_spawn : Nat → prefork_simple → Except Fault prefork_simple
  | 0, _ => .error .script_end
  | n + 1, forker =>
    if forker.current_num_children < forker.min_children then do
      let (_, forker) ← launch_child forker
      reap_spawn n forker
    else
      .ok forker

/-- Source `reap_children`. -/
def reap_children (forker : prefork_simple) : Except Fault prefork_simple := do
  let forker ← reap_bury (forker.waits.length + 1) forker
  reap_spawn (forker.spawns.length + 1) forker

/-- The statement `if( child_dead ) reap_children( forker );`. -/
def reap_if_dead (forker : prefork_simple) : Except Fault prefork_simple :=
  match forker.deads with
  | [] => .error .script_end
  | child_dead :: rest =>
    let forker := { forker with deads := rest }
    if child_dead then reap_children forker else .ok forker

/-- The do-while of `check_children` that puts every active child's `read_status_fd`
into `read_set`. -/
def collect_fds (forker : prefork_simple) : Nat → Ptr → Except Fault (List Int)
  | 0, _ => .error .diverges
  | n + 1, cur_child => do
    let c ← deref forker cur_child
    if c.next ≠ forker.first_child then
      let rest ← collect_fds forker n c.next
      pure (c.read_status_fd :: rest)
    else
      pure [c.read_status_fd]

/-- The `for( j = 0; j != current_num_children && num_handled < select_ret; j++ )` loop
of `check_children`.  The first argument counts the values `j` may still take. -/
def check_children_loop (read_set : List Int) (select_ret : Int) :
    Nat → Int → Ptr → prefork_simple → Except Fault prefork_simple
  | 0, _, _, forker =>
    if 0 ≤ forker.current_num_children then .ok forker else .error .overflow
  | n + 1, num_handled, cur_child, forker =>
    if num_handled < select_ret then do
      let c ← deref forker cur_child
      if c.read_status_fd ∈ read_set then
        let forker := log forker (.read c.read_status_fd)
        -- Remove the child from the active list
        let forker ←
          if forker.first_child = cur_child then do
            let forker :=
              if c.next = cur_child then { forker with first_child := none }
              else { forker with first_child := c.next }
            let forker ← set_prev forker c.next c.prev
            let c ← deref forker cur_child
            set_next forker c.prev c.next
          else
            pure forker
        -- Add it to the idle list
        let forker ← set_prev forker cur_child none
        let forker ← set_next forker cur_child forker.idle_list
        let forker := { forker with idle_list := cur_child }
        let c ← deref forker cur_child
        check_children_loop read_set select_ret n (num_handled + 1) c.next forker
      else
        check_children_loop read_set select_ret n num_handled c.next forker
    else
      .ok forker

/-- Source `check_children`.  The flag `forever` only chooses the timeout of `select`,
whose answer comes from the script. -/
def check_children (forker : prefork_simple) (forever : Bool) :
    Except Fault prefork_simple := do
  let forker ← reap_if_dead forker
  match forker.first_child with
  | none => pure forker
  | some _ =>
    let forker ← reap_if_dead forker
    let fds ← collect_fds forker (forker.heap.length + 1) forker.first_child
    let read_set := fds.filter (fun fd => fd ≠ 0)   -- FD_CLR(0,&read_set)
    match forker.selects with
    | [] => .error .script_end
    | (select_ret, readable) :: rest =>
      let forker := { forker with selects := rest }
      let read_set := read_set.filter (fun fd => fd ∈ readable)
      if select_ret = 0 then pure forker
      else
        let budget : Nat :=
          if 0 ≤ forker.current_num_children then forker.current_num_children.toNat
          else 2 ^ 31
        let _ := forever
        check_children_loop read_set select_ret budget 0 forker.first_child forker

/-- The `while( forker->idle_list )` loop of `prefork_run`.  Yields `honored`, the last
value of `cur_child`, and the pool. -/
def dispatch_idle (msg_data : List Nat) :
    Nat → Ptr → prefork_simple → Except Fault (Bool × Ptr × prefork_simple)
  | 0, _, _ => .error .script_end
  | n + 1, cur_child, forker =>
    match forker.idle_list with
    | none => .ok (false, cur_child, forker)
    | some a => do
      -- Grab the prefork_child at the head of the idle list
      let cur_child : Ptr := some a
      let c ← deref forker cur_child
      let forker := { forker with idle_list := c.next }
      let forker ← set_next forker cur_child none
      match forker.writes with
      | [] => .error .script_end
      | written :: rest =>
        let forker :=
          log { forker with writes := rest } (.write c.write_data_fd (msg_data ++ [0]) written)
        if written < 0 then
          let forker := log forker (.kill c.pid)
          let forker ← del_prefork_child forker c.pid
          dispatch_idle msg_data n cur_child forker
        else
          let forker ← add_prefork_child forker cur_child
          pure (true, cur_child, forker)

/-- The block `if( ! honored ) { ... launch_child ... }` of `prefork_run`. -/
def dispatch_new (msg_data : List Nat) (cur_child : Ptr) (forker : prefork_simple) :
    Except Fault (Bool × prefork_simple) :=
  if forker.current_num_children < forker.max_children then do
    let (_, forker) ← launch_child forker
    match forker.idle_list with
    | none => pure (false, forker)
    | some a =>
      -- Take the new child from the idle list
      let new_child : Ptr := some a
      let nc ← deref forker new_child
      let forker := { forker with idle_list := nc.next }
      let forker ← set_next forker new_child none
      match forker.writes with
      | [] => .error .script_end
      | written :: rest =>
        let forker :=
          log { forker with writes := rest }
            (.write nc.write_data_fd (msg_data ++ [0]) written)
        if written < 0 then
          let c ← deref forker cur_child
          let forker := log forker (.kill c.pid)
          let c ← deref forker cur_child
          let forker ← del_prefork_child forker c.pid
          pure (false, forker)
        else
          let forker ← add_prefork_child forker new_child
          pure (true, forker)
  else
    pure (false, forker)

/-- One pass of the body of `while( ! honored )` in `prefork_run`.
Yields `honored`, `no_recheck` and the pool. -/
def dispatch_round (msg_data : List Nat) (no_recheck : Bool) (forker : prefork_simple) :
    Except Fault (Bool × Bool × prefork_simple) := do
  let forker ← (if no_recheck then pure forker else check_children forker false)
  let (honored, cur_child, forker) ←
    dispatch_idle msg_data (forker.writes.length + 1) none forker
  /- if none available, add a new child if we can -/
  let (honored, forker) ←
    (if honored then pure (true, forker) else dispatch_new msg_data cur_child forker)
  let (no_recheck, forker) ←
    (if honored then pure (false, forker)
     else (check_children forker true).map (fun forker => (true, forker)))
  let forker ← reap_if_dead forker
  pure (honored, no_recheck, forker)

/-- The loop `while( ! honored )` of `prefork_run` for one message. -/
def dispatch_loop (msg_data : List Nat) :
    Nat → Bool → prefork_simple → Except Fault prefork_simple
  | 0, _, _ => .error .script_end
  | n + 1, no_recheck, forker => do
    let (honored, no_recheck, forker) ← dispatch_round msg_data no_recheck forker
    if honored then pure forker else dispatch_loop msg_data n no_recheck forker

/-- Dispatch of one usable message: `honored = 0; no_recheck = 0; while( ! honored )`.
Every pass reads `child_dead` at least once, so the script bounds the passes. -/
def dispatch (msg_data : List Nat) (forker : prefork_simple) :
    Except Fault prefork_simple :=
  dispatch_loop msg_data (forker.deads.length + 1) false forker

/-- The top level `while(1)` of `prefork_run`. -/
def prefork_run_loop : Nat → prefork_simple → Except Fault prefork_simple
  | 0, _ => .error .script_end
  | n + 1, forker =>
    if forker.first_child = none ∧ forker.idle_list = none then .ok forker
    else
      match forker.recvs with
      | [] => .error .script_end
      | cur_msg :: rest =>
        let forker := log { forker with recvs := rest } .recv
        match cur_msg with
        | .no_message => prefork_run_loop n forker
        | .null_xml => prefork_run_loop n forker
        | .xml msg_data =>
          if msg_data = [] then prefork_run_loop n forker
          else do
            let forker ← dispatch msg_data forker
            prefork_run_loop n forker

/-- Source `prefork_run`. -/
def prefork_run (forker : prefork_simple) : Except Fault prefork_simple :=
  if forker.idle_list = none then .ok forker
  else prefork_run_loop (forker.recvs.length + 1) forker

/-! ## What is on which list -/

/-- Addresses met from `p` by following `next` until NULL. -/
def list_members (heap : List prefork_child) : Nat → Ptr → List Nat
  | 0, _ => []
  | _ + 1, none => []
  | n + 1, some a =>
    match heap[a]? with
    | none => [a]
    | some c => a :: list_members heap n c.next

/-- Addresses met from `p` by following `next` until `next == first`. -/
def ring_members (heap : List prefork_child) (first : Ptr) : Nat → Ptr → List Nat
  | 0, _ => []
  | _ + 1, none => []
  | n + 1, some a =>
    match heap[a]? with
    | none => [a]
    | some c => if c.next = first then [a] else a :: ring_members heap first n c.next

/-- Records on the active ring, from `first_child`. -/
def active_ring (forker : prefork_simple) : List Nat :=
  ring_members forker.heap forker.first_child forker.heap.length forker.first_child

/-- Records on the idle stack, top first. -/
def idle_stack (forker : prefork_simple) : List Nat :=
  list_members forker.heap forker.heap.length forker.idle_list

/-- Records on the free list, head first. -/
def free_stack (forker : prefork_simple) : List Nat :=
  list_members forker.heap forker.heap.length forker.free_list

/-- A raw `prefork_simple` on the stack of `osrf_prefork_run`, an empty heap, and the
given script. -/
def raw_forker (spawns : List SpawnResult) (writes waits : List Int)
    (selects : List (Int × List Int)) (deads : List Bool) (recvs : List RecvResult) :
    prefork_simple :=
  { max_requests := 0, min_children := 0, max_children := 0, current_num_children := 0
    keepalive := 0, appname := none, first_child := none, idle_list := none
    free_list := none, heap := [], spawns := spawns, writes := writes, waits := waits
    selects := selects, deads := deads, recvs := recvs, events := [] }

/-- First loop of `prefork_clear`: kill and delete every active child. -/
def prefork_clear_active : Nat → prefork_simple → Except Fault prefork_simple
  | 0, _ => .error .diverges
  | n + 1, prefork =>
    match prefork.first_child with
    | none => .ok prefork
    | some a => do
      let c ← deref prefork (some a)
      let prefork := log prefork (.kill c.pid)
      let c ← deref prefork prefork.first_child
      let prefork ← del_prefork_child prefork c.pid
      prefork_clear_active n prefork

/-- Second loop of `prefork_clear`: kill every idle child and free its record. -/
def prefork_clear_idle : Nat → Ptr → prefork_simple → Except Fault prefork_simple
  | 0, _, _ => .error .diverges
  | n + 1, child, prefork =>
    match child with
    | none => .ok prefork
    | some a => do
      let c ← deref prefork (some a)
      let temp := c.next
      let prefork := log prefork (.kill c.pid)
      let prefork ← prefork_child_free prefork (some a)
      prefork_clear_idle n temp prefork

/-- Last loop of `prefork_clear`: `while( (waitpid(-1, NULL, WNOHANG)) > 0 )`. -/
def prefork_clear_wait : Nat → prefork_simple → Except Fault prefork_simple
  | 0, _ => .error .script_end
  | n + 1, prefork =>
    match prefork.waits with
    | [] => .error .script_end
    | w :: rest =>
      let prefork := { prefork with waits := rest }
      if w > 0 then
        prefork_clear_wait n
          { prefork with current_num_children := prefork.current_num_children - 1 }
      else
        .ok prefork

/-- Source `prefork_clear`.  The records of the free list are handed back to `free()`;
nothing refers to them afterwards. -/
def prefork_clear (prefork : prefork_simple) : Except Fault prefork_simple := do
  let prefork ← prefork_clear_active (prefork.heap.length + 1) prefork
  let child := prefork.idle_list
  let prefork := { prefork with idle_list := none }
  let prefork ← prefork_clear_idle (prefork.heap.length + 1) child prefork
  let prefork := { prefork with free_list := none }
  let prefork ← prefork_clear_wait (prefork.waits.length + 1) prefork
  pure { prefork with appname := none }

/-- Source `osrf_prefork_run`.  Each setting is `atoi` of the configured string, or
`none` where `osrf_settings_host_value` finds nothing; `bootstrap` is the result of
`osrfSystemBootstrapClientResc`; `forker` holds the raw struct and the script.
Router registration sends bus messages and leaves the pool alone. -/
def osrf_prefork_run (appname : Option String)
    (max_req min_children max_children keepalive : Option Int) (bootstrap : Bool)
    (forker : prefork_simple) : Except Fault (Int × prefork_simple) :=
  match appname with
  | none => .ok (-1, forker)
  | some name =>
    let maxr : Int := max_req.getD 1000
    let maxc : Int := max_children.getD 10
    let minc : Int := min_children.getD 3
    let kalive : Int := keepalive.getD 5
    if bootstrap = false then .ok (-1, forker)
    else
      match prefork_simple_init forker maxr minc maxc with
      | (rc, forker) =>
        if rc ≠ 0 then .ok (-1, forker)
        else do
          -- Finish initializing the prefork_simple.
          let forker := { forker with appname := some name, keepalive := kalive }
          let forker ← prefork_launch_children forker
          let forker ← prefork_run forker
          let forker ← prefork_clear forker
          pure (0, forker)

/-! ## The drone -/

/-- Linux value of `EAGAIN`. -/
def EAGAIN : Int := 11

/-- Linux value of `EPIPE`. -/
def EPIPE : Int := 32

/-- One return of `read(child->read_data_fd, buf, READ_BUFSIZE-1)`. -/
structure ReadResult where
  /-- The value returned. -/
  n : Int
  /-- What the call left in `buf`. -/
  buf : List Nat
  /-- The value of `errno` after the call. -/
  errno : Int
  deriving DecidableEq, Repr

/-- One return of `osrf_app_session_queue_wait`, with the clock read around it and the
session state it leaves. -/
structure WaitResult where
  start : Int
  retval : Int
  recvd : Int
  finish : Int
  /-- Whether `session->state == OSRF_SESSION_CONNECTED` after the wait. -/
  connected : Bool
  deriving DecidableEq, Repr

/-- What the drone does that others can see. -/
inductive WorkerEvent where
  /-- Call `prefork_child_process_request( child, data )`. -/
  | request (data : List Nat)
  /-- Call `write( child->write_status_fd, bytes, count )`. -/
  | status_write (bytes : List Nat) (count : Nat)
  /-- Call `osrf_app_session_queue_wait( session, timeout, &recvd )`. -/
  | queue_wait (timeout : Int)
  /-- Call `osrfAppSessionStatus( session, OSRF_STATUS_TIMEOUT, ... )`. -/
  | timeout_status
  | session_free
  | child_exit
  deriving DecidableEq, Repr

/-- The bytes of the literal `"available"`. -/
def available : List Nat := [97, 118, 97, 105, 108, 97, 98, 108, 101]

/-- Modelled from the spec: `buffer_add` (opensrf/utils.h) is not under src/.  It appends
the C string `data`, that is the bytes before its first NUL, to the growing buffer; the
request frame of the spec ends at that NUL. -/
def buffer_add (gbuf : List Nat) (data : List Nat) : List Nat :=
  gbuf ++ data.takeWhile (fun b => b ≠ 0)

/-- The loop `while( (n=read(child->read_data_fd, buf, READ_BUFSIZE-1)) > 0 )` of
`prefork_child_wait`.  Yields the read that ended it, `gotdata`, the buffer and the
reads still to come; `none` while the drone is still blocked in `read`. -/
def read_loop : List ReadResult → Bool → List Nat →
    Option (ReadResult × Bool × List Nat × List ReadResult)
  | [], _, _ => none
  | r :: rest, gotdata, gbuf =>
    if r.n > 0 then
      read_loop rest true (buffer_add gbuf (r.buf.take r.n.toNat))
    else
      some (r, gotdata, gbuf, rest)

/-- The keepalive loop `while(1)` of `prefork_child_process_request`.  Yields what the
drone did and how many waits it made; `none` while the loop is still running. -/
def keepalive_loop (keepalive : Int) :
    List WaitResult → List WorkerEvent → Nat → Option (List WorkerEvent × Nat)
  | [], _, _ => none
  | w :: rest, ev, k =>
    let ev := ev ++ [.queue_wait keepalive]
    if w.retval ≠ 0 then some (ev, k + 1)
    /- see if the client disconnected from us -/
    else if w.connected = false then some (ev, k + 1)
    /- if no data was reveived within the timeout interval -/
    else if w.recvd = 0 ∧ w.finish - w.start ≥ keepalive then
      some (ev ++ [.timeout_status], k + 1)
    else keepalive_loop keepalive rest ev k.succ

/-- What the session layer hands back for one inbound message. -/
structure Session where
  stateless : Bool
  /-- Whether `session->state == OSRF_SESSION_CONNECTED` on return of the handler. -/
  connected : Bool
  deriving DecidableEq, Repr

/-- Source `prefork_child_process_request` for a non-NULL child.  `client_connected` and
`bootstrap` are the results of `client_connected` and `osrf_system_bootstrap_client`;
`session` is what `osrf_stack_transport_handler` returns. -/
def prefork_child_process_request (child : prefork_child)
    (client_connected bootstrap : Bool) (session : Option Session)
    (waits : List WaitResult) : Option (List WorkerEvent) :=
  if client_connected = false ∧ bootstrap = false then some [.child_exit]
  else
    match session with
    | none => some []
    | some session =>
      if session.stateless = true ∧ session.connected = false then some [.session_free]
      else
        match keepalive_loop child.keepalive waits [] 0 with
        | none => none
        | some (ev, _) => some (ev ++ [.session_free])

/-- What the environment answers during one call of `prefork_child_process_request`:
the results of `client_connected` and `osrf_system_bootstrap_client`, the session that
`osrf_stack_transport_handler` returns, and the queue waits of the keepalive loop. -/
structure Handling where
  client_connected : Bool
  bootstrap : Bool
  session : Option Session
  waits : List WaitResult
  deriving DecidableEq, Repr

/-- Whether the process ended inside the call of `prefork_child_process_request`:
`osrf_prefork_child_exit` calls `exit(0)` and does not return. -/
def exited (out : List WorkerEvent) : Bool :=
  out.contains .child_exit

/-- How a pass of the serving loop ends. -/
inductive PassEnd where
  /-- The pass reached `i++`. -/
  | next
  /-- The pass left the loop through one of its two `break` statements. -/
  | left
  /-- The process ended inside `prefork_child_process_request`. -/
  | exited
  deriving DecidableEq, Repr

/-- The body of the `for( i = 0; i < child->max_requests; i++ )` loop of
`prefork_child_wait`: one pass, for the value `i`.  Yields how the pass ended, what the
drone did in it, the reads and handlings still to come, and the buffer; `none` while the
drone is blocked in `read` or still inside `prefork_child_process_request`. -/
def prefork_child_wait_pass (child : prefork_child) (i : Int) (reads : List ReadResult)
    (handlings : List Handling) (gbuf : List Nat) :
    Option (PassEnd × List WorkerEvent × List ReadResult × List Handling × List Nat) :=
  match read_loop reads false gbuf with
  | none => none
  | some (r, gotdata, gbuf, reads) =>
    let n : Int := if r.errno = EAGAIN then 0 else r.n
    if r.errno = EPIPE then some (.left, [], reads, handlings, gbuf)
    else if n < 0 then some (.left, [], reads, handlings, gbuf)
    else
      let status : List WorkerEvent :=
        if i < child.max_requests - 1 then [.status_write available 9] else []
      if gotdata then
        match handlings with
        | [] => none
        | h :: handlings =>
          match prefork_child_process_request child h.client_connected h.bootstrap
              h.session h.waits with
          | none => none
          | some out =>
            if exited out then some (.exited, .request gbuf :: out, reads, handlings, gbuf)
            else some (.next, .request gbuf :: out ++ status, reads, handlings, [])
      else
        some (.next, status, reads, handlings, gbuf)

/-- The `for( i = 0; i < child->max_requests; i++ )` loop of `prefork_child_wait`.
The first argument counts the values `i` may still take.  Yields what the drone did and
whether the process has already ended inside `prefork_child_process_request`. -/
def prefork_child_wait_loop (child : prefork_child) :
    Nat → Int → List ReadResult → List Handling → List Nat → List WorkerEvent →
      Option (List WorkerEvent × Bool)
  | 0, _, _, _, _, ev => some (ev, false)
  | k + 1, i, reads, handlings, gbuf, ev =>
    match prefork_child_wait_pass child i reads handlings gbuf with
    | none => none
    | some (.next, out, reads, handlings, gbuf) =>
      prefork_child_wait_loop child k (i + 1) reads handlings gbuf (ev ++ out)
    | some (.left, out, _, _, _) => some (ev ++ out, false)
    | some (.exited, out, _, _, _) => some (ev ++ out, true)

/-- Source `prefork_child_wait`: what the drone does given the reads of its request
pipe and the handling of each request; `none` while it is still blocked.  After the loop
it calls `osrf_prefork_child_exit`, unless the process ended before. -/
def prefork_child_wait (child : prefork_child) (reads : List ReadResult)
    (handlings : List Handling) : Option (List WorkerEvent) :=
  match prefork_child_wait_loop child child.max_requests.toNat 0 reads handlings [] [] with
  | none => none
  | some (ev, true) => some ev
  | some (ev, false) => some (ev ++ [.child_exit])

/-! ## Concrete pools used below -/

/-- A pool set up with `min_children = 1`, `max_children = 3`, whose script lets three
forks succeed (pids 100, 101, 102) and answers as given otherwise. -/
def small_pool (writes waits : List Int) (selects : List (Int × List Int))
    (deads : List Bool) : prefork_simple :=
  (prefork_simple_init
    (raw_forker [.forked 3 4 5 6 100, .forked 7 8 9 10 101, .forked 11 12 13 14 102]
      writes waits selects deads [])
    1000 1 3).2

/-- What a run left behind: the counter, the three lists, and the pids killed. -/
def summary (r : Except Fault prefork_simple) :
    Option (Int × List Nat × List Nat × List Nat × List Int) :=
  match r with
  | .error _ => none
  | .ok f =>
    some (f.current_num_children, active_ring f, idle_stack f, free_stack f,
      f.events.filterMap (fun e => match e with | .kill pid => some pid | _ => none))

/-- The fault that ended a run, if one did. -/
def fault_of (r : Except Fault prefork_simple) : Option Fault :=
  match r with
  | .error e => some e
  | .ok _ => none

/-! ## Definitions used to state the theorems -/

/-- The test under which the loop sends the timeout status: the wait succeeded, the
session is still connected, nothing was received, and `end - start >= keepalive`. -/
def timed_out (keepalive : Int) (w : WaitResult) : Prop :=
  w.retval = 0 ∧ w.connected = true ∧ w.recvd = 0 ∧ w.finish - w.start ≥ keepalive

instance (keepalive : Int) (w : WaitResult) : Decidable (timed_out keepalive w) := by
  unfold timed_out
  infer_instance

/-- The reads of one request: some reads that return data, then the read that ends the
inner loop. -/
structure Frame where
  chunks : List ReadResult
  stop : ReadResult

/-- All reads of a frame, in order. -/
def Frame.reads (fr : Frame) : List ReadResult := fr.chunks ++ [fr.stop]

/-- The request read succeeds: data arrived, and the read that ends the loop neither
reports a broken pipe nor an error other than `EAGAIN`. -/
def Frame.succeeds (fr : Frame) : Prop :=
  fr.chunks ≠ [] ∧ (∀ r ∈ fr.chunks, r.n > 0) ∧ fr.stop.n ≤ 0
    ∧ fr.stop.errno ≠ EPIPE ∧ (fr.stop.errno = EAGAIN ∨ fr.stop.n = 0)

/-- What `buffer_add` has gathered from the chunks, starting from `gbuf`. -/
def gather (gbuf : List Nat) (chunks : List ReadResult) : List Nat :=
  chunks.foldl (fun g r => buffer_add g (r.buf.take r.n.toNat)) gbuf

/-- The request handed over for a frame. -/
def Frame.data (fr : Frame) : List Nat := gather [] fr.chunks

/-- Whether an event is a call of `prefork_child_process_request`. -/
def is_request : WorkerEvent → Bool
  | .request _ => true
  | _ => false

/-- What the drone does inside one call of `prefork_child_process_request`. -/
def handled (child : prefork_child) (h : Handling) : List WorkerEvent :=
  (prefork_child_process_request child h.client_connected h.bootstrap h.session
    h.waits).getD []

/-- The call of `prefork_child_process_request` returns to the serving loop: the
keepalive loop, if entered, ends, and the process does not exit inside the call. -/
def Handling.returns (child : prefork_child) (h : Handling) : Prop :=
  ∃ out, prefork_child_process_request child h.client_connected h.bootstrap h.session
      h.waits = some out ∧ exited out = false

/-- What the drone does for the frames when every call returns: for each frame the call
and what happens inside it. -/
def served (child : prefork_child) (frames : List Frame) (handlings : List Handling) :
    List (List WorkerEvent) :=
  List.zipWith (fun fr h => WorkerEvent.request fr.data :: handled child h) frames
    handlings

/-- A drone that serves at most `max_requests` requests, with keepalive 5. -/
def drone (max_requests : Int) : prefork_child :=
  { pid := 100, read_data_fd := 3, write_data_fd := 4, read_status_fd := 5
    write_status_fd := 6, max_requests := max_requests, appname := some "opensrf.math"
    keepalive := 5, next := none, prev := none }

/-- The one-byte request `b`, read in one piece, after which the pipe is drained. -/
def byte_frame (b : Nat) : Frame :=
  Frame.mk [ReadResult.mk 2 [b, 0] 0] (ReadResult.mk (-1) [] EAGAIN)

/-- A call in which the transport client is connected and the session layer hands back
no session. -/
def plain_handling : Handling :=
  { client_connected := true, bootstrap := true, session := none, waits := [] }

/-- A call in which the transport client is connected and the session is stateful and
connected; the first queue wait fails. -/
def session_handling : Handling :=
  { client_connected := true, bootstrap := true, session := some ⟨false, true⟩
    waits := [WaitResult.mk 10 1 0 10 true] }

/-- A call in which the transport client has lost its connection and cannot be
reconnected. -/
def lost_handling : Handling :=
  { client_connected := false, bootstrap := false, session := none, waits := [] }

/-- The bounds and the counter are the same in both pools. -/
def same_count (f g : prefork_simple) : Prop :=
  g.min_children = f.min_children ∧ g.max_children = f.max_children
    ∧ g.current_num_children = f.current_num_children

/-- The pool keeps the bounds `lo <= hi` it was set up with and its counter is at most
`hi`. -/
def within (lo hi : Int) (f : prefork_simple) : Prop :=
  f.min_children = lo ∧ f.max_children = hi ∧ f.current_num_children ≤ hi

/-- One operation of the parent on its pool. -/
inductive PoolOp where
  | dispatch (msg_data : List Nat)
  | check_children (forever : Bool)
  | reap_children
  deriving DecidableEq, Repr

/-- Run one pool operation. -/
def PoolOp.run : PoolOp → prefork_simple → Except Fault prefork_simple
  | .dispatch msg_data, forker => OpenSRF.dispatch msg_data forker
  | .check_children forever, forker => OpenSRF.check_children forker forever
  | .reap_children, forker => OpenSRF.reap_children forker

/-- Run pool operations one after the other. -/
def run_ops : List PoolOp → prefork_simple → Except Fault prefork_simple
  | [], forker => .ok forker
  | op :: ops, forker => do
    let forker ← op.run forker
    run_ops ops forker

/-- A pool with `min_children = 1` whose single worker (pid 100, record 0) is on the
active ring and has terminated; the next `spawns` are as given. -/
def one_active_pool (spawns : List SpawnResult) : prefork_simple :=
  { max_requests := 1000, min_children := 1, max_children := 3, current_num_children := 1
    keepalive := 5, appname := some "opensrf.math", first_child := some 0
    idle_list := none, free_list := none
    heap := [{ pid := 100, read_data_fd := 3, write_data_fd := 4, read_status_fd := 5
               write_status_fd := 6, max_requests := 1000, appname := some "opensrf.math"
               keepalive := 5, next := some 0, prev := some 0 }]
    spawns := spawns, writes := [], waits := [100, 0], selects := [], deads := []
    recvs := [], events := [] }

/-- The pool `one_active_pool` after `reap_children` replaced the dead worker by a new
one (pid 101), which took over record 0 from the free list. -/
def replaced_pool : prefork_simple :=
  { max_requests := 1000, min_children := 1, max_children := 3, current_num_children := 1
    keepalive := 5, appname := some "opensrf.math", first_child := none
    idle_list := some 0, free_list := none
    heap := [{ pid := 101, read_data_fd := 7, write_data_fd := 8, read_status_fd := 9
               write_status_fd := 10, max_requests := 1000
               appname := some "opensrf.math", keepalive := 5, next := none, prev := none }]
    spawns := [], writes := [], waits := [], selects := [], deads := [], recvs := []
    events := [.close 3, .close 4, .close 5, .close 6, .launch] }

/-- A pool set up with bounds 1 and 3 after its first worker (pid 100) was launched and
given the message `<`, and a `reap_children` that found nothing to bury. -/
def serving_pool : prefork_simple :=
  { max_requests := 1000, min_children := 1, max_children := 3, current_num_children := 1
    keepalive := 5, appname := some "opensrf.math", first_child := some 0
    idle_list := none, free_list := none
    heap := [{ pid := 100, read_data_fd := 3, write_data_fd := 4, read_status_fd := 5
               write_status_fd := 6, max_requests := 1000
               appname := some "opensrf.math", keepalive := 5
               next := some 0, prev := some 0 }]
    spawns := [.forked 7 8 9 10 101], writes := [], waits := [], selects := []
    deads := [], recvs := [], events := [.launch, .write 4 [60, 0] 5] }

/-! ## The cache client (`src/libopensrf/osrf_cache.c`)

A C string is the list of its bytes before the terminating NUL. -/

def MAX_KEY_LEN : Nat := 250

/-- The libmemcached return code `MEMCACHED_SUCCESS`. -/
def MEMCACHED_SUCCESS : Int := 0

/-- The libc `isspace` in the C locale: space and the bytes 9 to 13. -/
def isspace (c : Nat) : Bool := decide (c = 32 ∨ (9 ≤ c ∧ c ≤ 13))

/-- The libc `iscntrl` in the C locale: the bytes below 32, and 127. -/
def iscntrl (c : Nat) : Bool := decide (c < 32 ∨ c = 127)

/-- The libc `strncat`: append to `dest` at most `n` bytes of the C string `src`. -/
def strncat (dest src : List Nat) (n : Nat) : List Nat :=
  dest ++ (src.takeWhile (fun b => b ≠ 0)).take n

/-- The bytes of the literal `"shortened_"`. -/
def shortened : List Nat := [115, 104, 111, 114, 116, 101, 110, 101, 100, 95]

/-- The copying loop of `_clean_key`,
`do { while(isspace(*s) || ((*s != '\0') && iscntrl(*s))) s++; } while((*d++ = *s++));`
run on the bytes at `s`; it yields the bytes written at `d` before the NUL. -/
def clean_loop : List Nat → List Nat
  | [] => []
  | c :: s =>
    if c = 0 then []
    else if isspace c || iscntrl c then clean_loop s
    else c :: clean_loop s

/-- Source `_clean_key`.  The helper `md5sum` (opensrf/utils.h) is not under src/ and is
taken as a parameter. -/
def _clean_key (md5sum : List Nat → List Nat) (key : List Nat) : List Nat :=
  let clean_key := clean_loop key
  if clean_key.length > MAX_KEY_LEN then
    let hashed := md5sum clean_key
    strncat (strncat [] shortened 11) hashed MAX_KEY_LEN
  else
    clean_key

/-- Modelled from the spec: the JSON object of the objson library, which is not under
src/.  A value is null, a boolean, a number (kept as its text), a string, an array or a
hash of named members. -/
inductive jsonObject where
  | null
  | bool (b : Bool)
  | number (text : String)
  | string (s : String)
  | array (items : List jsonObject)
  | hash (members : List (String × jsonObject))

/-- One call made to the memcached client library. -/
inductive CacheCall where
  | set (key value : List Nat) (expiration : Int)
  | get (key : List Nat)
  | delete (key : List Nat)
  deriving DecidableEq, Repr

/-- The static `_osrfCacheMaxSeconds`, the entries held by the servers behind
`_osrfCache` (key, value, expiration given), and the calls made to the library. -/
structure osrf_cache where
  _osrfCacheMaxSeconds : Int
  entries : List (List Nat × List Nat × Int)
  calls : List CacheCall
  deriving DecidableEq, Repr

/-- The value stored under `key`, if any. -/
def lookup_entry (entries : List (List Nat × List Nat × Int)) (key : List Nat) :
    Option (List Nat) :=
  match entries.find? (fun e => e.1 = key) with
  | none => none
  | some e => some e.2.1

/-- The library call `memcached_set(_osrfCache, key, strlen(key), value, strlen(value),
expiration, 0)` when it returns `rc`: the entry is added or overwritten exactly when
`rc` is `MEMCACHED_SUCCESS`. -/
def memcached_set (cache : osrf_cache) (key value : List Nat) (expiration : Int)
    (rc : Int) : osrf_cache :=
  let cache := { cache with calls := cache.calls ++ [.set key value expiration] }
  if rc = MEMCACHED_SUCCESS then
    { cache with
        entries := (key, value, expiration) :: cache.entries.filter (fun e => e.1 ≠ key) }
  else
    cache

/-- The library call `memcached_get(_osrfCache, key, strlen(key), ...)` when it sets
`rc`: the data are those stored when `rc` is `MEMCACHED_SUCCESS`, and NULL otherwise. -/
def memcached_get (cache : osrf_cache) (key : List Nat) (rc : Int) :
    Option (List Nat) × osrf_cache :=
  let data := if rc = MEMCACHED_SUCCESS then lookup_entry cache.entries key else none
  (data, { cache with calls := cache.calls ++ [.get key] })

/-- The library call `memcached_delete(_osrfCache, key, strlen(key), 0)` when it
returns `rc`. -/
def memcached_delete (cache : osrf_cache) (key : List Nat) (rc : Int) : osrf_cache :=
  let cache := { cache with calls := cache.calls ++ [.delete key] }
  if rc = MEMCACHED_SUCCESS then
    { cache with entries := cache.entries.filter (fun e => e.1 ≠ key) }
  else
    cache

/-- Source `osrfCachePutString`; `rc` is what `memcached_set` returns.  A NULL pointer is
`none`; `strlen(value)` bytes of `value` are stored. -/
def osrfCachePutString (md5sum : List Nat → List Nat) (cache : osrf_cache) (rc : Int)
    (key value : Option (List Nat)) (seconds : Int) : Int × osrf_cache :=
  match key, value with
  | some key, some value =>
    let seconds :=
      if seconds ≤ 0 ∨ seconds > cache._osrfCacheMaxSeconds then cache._osrfCacheMaxSeconds
      else seconds
    let clean_key := _clean_key md5sum key
    /- add or overwrite existing key:value pair -/
    (0, memcached_set cache clean_key (value.takeWhile (fun b => b ≠ 0)) seconds rc)
  | _, _ => (-1, cache)

/-- Source `osrfCachePutObject`; `jsonObjectToJSON` (objson) is not under src/ and is
taken as a parameter. -/
def osrfCachePutObject (md5sum : List Nat → List Nat)
    (jsonObjectToJSON : jsonObject → List Nat) (cache : osrf_cache) (rc : Int)
    (key : Option (List Nat)) (obj : Option jsonObject) (seconds : Int) :
    Int × osrf_cache :=
  match key, obj with
  | some key, some obj =>
    let s := jsonObjectToJSON obj
    (0, (osrfCachePutString md5sum cache rc (some key) (some s) seconds).2)
  | _, _ => (-1, cache)

/-- Source `osrfCacheGetString`; `rc` is what `memcached_get` sets. -/
def osrfCacheGetString (md5sum : List Nat → List Nat) (cache : osrf_cache) (rc : Int)
    (key : Option (List Nat)) : Option (List Nat) × osrf_cache :=
  match key with
  | some key =>
    let clean_key := _clean_key md5sum key
    memcached_get cache clean_key rc
  | none => (none, cache)

/-- Source `osrfCacheGetObject`; `jsonParse` (objson) is not under src/ and is taken as
a parameter. -/
def osrfCacheGetObject (md5sum : List Nat → List Nat)
    (jsonParse : List Nat → Option jsonObject) (cache : osrf_cache) (rc : Int)
    (key : Option (List Nat)) : Option jsonObject × osrf_cache :=
  match key with
  | some key =>
    let clean_key := _clean_key md5sum key
    match memcached_get cache clean_key rc with
    | (some data, cache) => (jsonParse data, cache)
    | (none, cache) => (none, cache)
  | none => (none, cache)

/-- Source `osrfCacheRemove`; `rc` is what `memcached_delete` returns. -/
def osrfCacheRemove (md5sum : List Nat → List Nat) (cache : osrf_cache) (rc : Int)
    (key : Option (List Nat)) : Int × osrf_cache :=
  match key with
  | some key =>
    let clean_key := _clean_key md5sum key
    (0, memcached_delete cache clean_key rc)
  | none => (-1, cache)

/-- Source `osrfCacheSetExpire`; `rc_get` and `rc_set` are what the two library calls
return. -/
def osrfCacheSetExpire (md5sum : List Nat → List Nat)
    (jsonObjectToJSON : jsonObject → List Nat) (jsonParse : List Nat → Option jsonObject)
    (cache : osrf_cache) (rc_get rc_set : Int) (seconds : Int)
    (key : Option (List Nat)) : Int × osrf_cache :=
  match key with
  | some key =>
    let clean_key := _clean_key md5sum key
    match osrfCacheGetObject md5sum jsonParse cache rc_get (some clean_key) with
    | (o, cache) =>
      osrfCachePutObject md5sum jsonObjectToJSON cache rc_set (some clean_key) o seconds
  | none => (-1, cache)

/-! ### The digest helper -/

/-- Per-round left rotations of MD5. -/
def md5_shift : List Nat :=
  [7, 12, 17, 22, 7, 12, 17, 22, 7, 12, 17, 22, 7, 12, 17, 22,
   5, 9, 14, 20, 5, 9, 14, 20, 5, 9, 14, 20, 5, 9, 14, 20,
   4, 11, 16, 23, 4, 11, 16, 23, 4, 11, 16, 23, 4, 11, 16, 23,
   6, 10, 15, 21, 6, 10, 15, 21, 6, 10, 15, 21, 6, 10, 15, 21]

/-- Per-round additive constants of MD5. -/
def md5_sine : List Nat :=
  [0xd76aa478, 0xe8c7b756, 0x242070db, 0xc1bdceee, 0xf57c0faf, 0x4787c62a, 0xa8304613,
   0xfd469501, 0x698098d8, 0x8b44f7af, 0xffff5bb1, 0x895cd7be, 0x6b901122, 0xfd987193,
   0xa679438e, 0x49b40821, 0xf61e2562, 0xc040b340, 0x265e5a51, 0xe9b6c7aa, 0xd62f105d,
   0x2441453, 0xd8a1e681, 0xe7d3fbc8, 0x21e1cde6, 0xc33707d6, 0xf4d50d87, 0x455a14ed,
   0xa9e3e905, 0xfcefa3f8, 0x676f02d9, 0x8d2a4c8a, 0xfffa3942, 0x8771f681, 0x6d9d6122,
   0xfde5380c, 0xa4beea44, 0x4bdecfa9, 0xf6bb4b60, 0xbebfbc70, 0x289b7ec6, 0xeaa127fa,
   0xd4ef3085, 0x4881d05, 0xd9d4d039, 0xe6db99e5, 0x1fa27cf8, 0xc4ac5665, 0xf4292244,
   0x432aff97, 0xab9423a7, 0xfc93a039, 0x655b59c3, 0x8f0ccc92, 0xffeff47d, 0x85845dd1,
   0x6fa87e4f, 0xfe2ce6e0, 0xa3014314, 0x4e0811a1, 0xf7537e82, 0xbd3af235, 0x2ad7d2bb,
   0xeb86d391]

/-- Reduce to 32 bits. -/
def word32 (x : Nat) : Nat := x % 4294967296

/-- Rotate a 32-bit word left by `c` bits. -/
def rotl32 (x c : Nat) : Nat := word32 (x <<< c) ||| (x >>> (32 - c))

/-- Complement of a 32-bit word. -/
def compl32 (x : Nat) : Nat := x ^^^ 4294967295

/-- The number whose little-endian bytes are given. -/
def le_word : List Nat → Nat
  | [] => 0
  | b :: rest => b % 256 + 256 * le_word rest

/-- The first `n` 32-bit words of a byte string. -/
def words_of : Nat → List Nat → List Nat
  | 0, _ => []
  | n + 1, bytes => le_word (bytes.take 4) :: words_of n (bytes.drop 4)

/-- One of the 64 operations of MD5 on the state `(a, b, c, d)`. -/
def md5_round (m : List Nat) (st : Nat × Nat × Nat × Nat) (i : Nat) :
    Nat × Nat × Nat × Nat :=
  match st with
  | (a, b, c, d) =>
    let f : Nat :=
      if i < 16 then (b &&& c) ||| (compl32 b &&& d)
      else if i < 32 then (d &&& b) ||| (compl32 d &&& c)
      else if i < 48 then b ^^^ c ^^^ d
      else c ^^^ (b ||| compl32 d)
    let g : Nat :=
      if i < 16 then i
      else if i < 32 then (5 * i + 1) % 16
      else if i < 48 then (3 * i + 5) % 16
      else (7 * i) % 16
    let x := word32 (f + a + md5_sine.getD i 0 + m.getD g 0)
    (d, word32 (b + rotl32 x (md5_shift.getD i 0)), b, c)

/-- MD5 on one 64-byte block. -/
def md5_block (st : Nat × Nat × Nat × Nat) (block : List Nat) : Nat × Nat × Nat × Nat :=
  match st, (List.range 64).foldl (md5_round (words_of 16 block)) st with
  | (a, b, c, d), (a2, b2, c2, d2) =>
    (word32 (a + a2), word32 (b + b2), word32 (c + c2), word32 (d + d2))

/-- MD5 on the first `n` blocks of a byte string. -/
def md5_blocks : Nat → Nat × Nat × Nat × Nat → List Nat → Nat × Nat × Nat × Nat
  | 0, st, _ => st
  | n + 1, st, bytes => md5_blocks n (md5_block st (bytes.take 64)) (bytes.drop 64)

/-- The `n` low bytes of a number, least significant first. -/
def le_bytes : Nat → Nat → List Nat
  | 0, _ => []
  | n + 1, x => x % 256 :: le_bytes n (x / 256)

/-- The MD5 padding: a 1 bit, zeros up to 56 modulo 64, and the length in bits. -/
def md5_pad (msg : List Nat) : List Nat :=
  msg ++ [128] ++ List.replicate ((55 + 64 - msg.length % 64) % 64) 0
    ++ le_bytes 8 (8 * msg.length)

/-- The lowercase hexadecimal digit of a number below 16. -/
def hex_digit (n : Nat) : Nat := if n < 10 then 48 + n else 87 + n

/-- The two hexadecimal digits of a byte. -/
def hex_byte (b : Nat) : List Nat := [hex_digit (b / 16 % 16), hex_digit (b % 16)]

/-- Modelled from the spec: `md5sum` (opensrf/utils.h) is not under src/.  The spec
calls its result the hex digest of a fixed cryptographic hash; this is the MD5 of
RFC 1321 written as 32 lowercase hexadecimal digits. -/
def md5sum (msg : List Nat) : List Nat :=
  match md5_blocks ((md5_pad msg).length / 64)
      (0x67452301, 0xefcdab89, 0x98badcfe, 0x10325476) (md5_pad msg) with
  | (a, b, c, d) =>
    (le_bytes 4 a ++ le_bytes 4 b ++ le_bytes 4 c ++ le_bytes 4 d).flatMap hex_byte

/-- What the claims assume of `md5sum`: it returns 32 hexadecimal digits. -/
def hex32 (md5sum : List Nat → List Nat) : Prop :=
  ∀ msg, (md5sum msg).length = 32
    ∧ ∀ c ∈ md5sum msg, (48 ≤ c ∧ c ≤ 57) ∨ (97 ≤ c ∧ c ≤ 102) ∨ (65 ≤ c ∧ c ≤ 70)

/-- A key of 252 bytes: a space followed by 251 letters `a`. -/
def long_key : List Nat := 32 :: List.replicate 251 97

/-! ## Router registration -/

/-- Modelled from the spec: `jsonObjectGetKeyConst` (objson, not under src/): the member
of a hash with the given name, NULL for a missing member and for anything but a hash. -/
def jsonObjectGetKeyConst (obj : Option jsonObject) (key : String) : Option jsonObject :=
  match obj with
  | some (.hash members) =>
    match members.find? (fun m => m.1 = key) with
    | some m => some m.2
    | none => none
  | _ => none

/-- Modelled from the spec: `jsonObjectGetString` (objson, not under src/): the text of
a string or of a number, NULL for anything else. -/
def jsonObjectGetString (obj : Option jsonObject) : Option String :=
  match obj with
  | some (.string s) => some s
  | some (.number text) => some text
  | _ => none

/-- One call of `osrf_prefork_send_router_registration`. -/
structure Registration where
  appname : String
  routerName : Option String
  routerDomain : Option String
  deriving DecidableEq, Repr

/-- The loop `for(j = 0; j < service_obj->size; j++ )` of
`osrf_prefork_parse_router_chunk` over the items of the array. -/
def register_listed (appname : String) (reg : Registration) :
    List jsonObject → List Registration
  | [] => []
  | item :: rest =>
    match jsonObjectGetString (some item) with
    | some service =>
      if appname = service then reg :: register_listed appname reg rest
      else register_listed appname reg rest
    | none => register_listed appname reg rest

/-- Source `osrf_prefork_parse_router_chunk`: the registrations it sends. -/
def osrf_prefork_parse_router_chunk (appname : String) (routerChunk : jsonObject) :
    List Registration :=
  let routerName := jsonObjectGetString (jsonObjectGetKeyConst (some routerChunk) "name")
  let domain := jsonObjectGetString (jsonObjectGetKeyConst (some routerChunk) "domain")
  let services := jsonObjectGetKeyConst (some routerChunk) "services"
  let reg : Registration :=
    { appname := appname, routerName := routerName, routerDomain := domain }
  match services with
  | some (.hash members) =>
    match jsonObjectGetKeyConst (some (.hash members)) "service" with
    | none => []    -- do nothing (shouldn't happen)
    | some (.array items) => register_listed appname reg items
    | some (.string s) => if appname = s then [reg] else []
    | some _ => []
  | _ => [reg]

/-! ## More concrete pools -/

/-- A pool with two busy workers: records 0 (pid 100, status pipe 5) and 1 (pid 101,
status pipe 9) form the active ring, record 0 at its head; the idle stack is empty. -/
def two_active_pool (selects : List (Int × List Int)) (deads : List Bool) :
    prefork_simple :=
  { max_requests := 1000, min_children := 1, max_children := 3, current_num_children := 2
    keepalive := 5, appname := some "opensrf.math", first_child := some 0
    idle_list := none, free_list := none
    heap := [{ pid := 100, read_data_fd := 3, write_data_fd := 4, read_status_fd := 5
               write_status_fd := 6, max_requests := 1000, appname := some "opensrf.math"
               keepalive := 5, next := some 1, prev := some 1 },
             { pid := 101, read_data_fd := 7, write_data_fd := 8, read_status_fd := 9
               write_status_fd := 10, max_requests := 1000
               appname := some "opensrf.math", keepalive := 5
               next := some 0, prev := some 0 }]
    spawns := [], writes := [], waits := [], selects := selects, deads := deads
    recvs := [], events := [] }

/-- Whether `_clean_key` keeps a byte: it is neither whitespace nor a control byte. -/
def kept (c : Nat) : Bool := !(isspace c || iscntrl c)

/-- A structured router entry with the given `services` member, if any. -/
def router_chunk (services : Option jsonObject) : jsonObject :=
  .hash ([("name", .string "router"), ("domain", .string "private.localhost")]
    ++ (match services with
        | some s => [("services", s)]
        | none => []))

/-- The registration that `router_chunk` entries give rise to for `opensrf.math`. -/
def math_registration : Registration :=
  { appname := "opensrf.math", routerName := some "router"
    routerDomain := some "private.localhost" }

/-- Whether a `launch_child` ends in one of its error returns: a `pipe()` failed, or
`fork()` returned a negative value. -/
def spawn_failed : SpawnResult → Bool
  | .data_pipe_error => true
  | .status_pipe_error _ _ => true
  | .forked _ _ _ _ pid => decide (pid < 0)

/-- The pool set up with bounds 1 and 3 after its one initial `launch_child` failed in
`pipe()`; a message is waiting on the bus. -/
def failed_launch_pool : prefork_simple :=
  { max_requests := 1000, min_children := 1, max_children := 3, current_num_children := 0
    keepalive := 5, appname := some "opensrf.math", first_child := none
    idle_list := none, free_list := none, heap := [], spawns := [], writes := []
    waits := [], selects := [], deads := [], recvs := [.xml [60]], events := [.launch] }

/-! ## Well-formed lists of a pool -/

/-- The `next` link of the record at an address; NULL where there is no record. -/
def next_of (heap : List prefork_child) (a : Nat) : Ptr :=
  match heap[a]? with
  | some c => c.next
  | none => none

/-- The `prev` link of the record at an address; NULL where there is no record. -/
def prev_of (heap : List prefork_child) (a : Nat) : Ptr :=
  match heap[a]? with
  | some c => c.prev
  | none => none

/-- Following the links `s` from the pointer `p` meets the records `l`, in this order,
and then the pointer `q`. -/
def follows (s : Nat → Ptr) : Ptr → List Nat → Ptr → Prop
  | p, [], q => p = q
  | p, a :: l, q => p = some a ∧ follows s (s a) l q

/-- The idle stack of the pool is `l`, top first: a chain of distinct records that
starts at `idle_list`, follows `next`, and ends in NULL. -/
def is_idle_stack (forker : prefork_simple) (l : List Nat) : Prop :=
  follows (next_of forker.heap) forker.idle_list l none
    ∧ (∀ a ∈ l, a < forker.heap.length) ∧ l.Nodup

/-- The active ring of the pool is `l`, from `first_child`: distinct records linked in
a circle by `next` and, the other way round, by `prev`; NULL when `l` is empty. -/
def is_active_ring (forker : prefork_simple) (l : List Nat) : Prop :=
  match l with
  | [] => forker.first_child = none
  | a :: t =>
    forker.first_child = some a
      ∧ (∀ b ∈ a :: t, b < forker.heap.length) ∧ (a :: t).Nodup
      ∧ follows (next_of forker.heap) (some a) (a :: t) (some a)
      ∧ follows (prev_of forker.heap) (some a) (a :: t.reverse) (some a)

/-- A pool with one busy worker (record 0, pid 100) and two idle ones: record 2
(pid 102) on top of record 1 (pid 101); the next write returns 5. -/
def lifo_pool : prefork_simple :=
  { max_requests := 1000, min_children := 1, max_children := 3, current_num_children := 3
    keepalive := 5, appname := some "opensrf.math", first_child := some 0
    idle_list := some 2, free_list := none
    heap := [{ pid := 100, read_data_fd := 3, write_data_fd := 4, read_status_fd := 5
               write_status_fd := 6, max_requests := 1000, appname := some "opensrf.math"
               keepalive := 5, next := some 0, prev := some 0 },
             { pid := 101, read_data_fd := 7, write_data_fd := 8, read_status_fd := 9
               write_status_fd := 10, max_requests := 1000
               appname := some "opensrf.math", keepalive := 5, next := none, prev := none },
             { pid := 102, read_data_fd := 11, write_data_fd := 12, read_status_fd := 13
               write_status_fd := 14, max_requests := 1000
               appname := some "opensrf.math", keepalive := 5
               next := some 1, prev := none }]
    spawns := [], writes := [5], waits := [], selects := [], deads := []
    recvs := [], events := [] }

/-- A pool set up with `min_children = 4`, `max_children = 4`, whose script lets four
forks succeed: records 0 to 3 with pids 100 to 103, request pipes written on fds 4, 8,
12, 16 and status pipes read on fds 5, 9, 13, 17. -/
def four_pool (writes : List Int) (selects : List (Int × List Int)) (deads : List Bool) :
    prefork_simple :=
  (prefork_simple_init
    (raw_forker [.forked 3 4 5 6 100, .forked 7 8 9 10 101, .forked 11 12 13 14 102,
        .forked 15 16 17 18 103]
      writes [] selects deads [])
    1000 4 4).2

/-! ## Theorems -/

/-- C1 (code at the failing input).  One worker (pid 100) is idle and the active ring is
empty; the worker dies and `reap_children` runs.  The counter ends at 1 while two records
(the dead one and its replacement) sit on the idle stack: `del_prefork_child` returned at
its first test without looking at the idle list. -/
theorem reap_idle_child_leaves_record_on_idle_stack :
    summary (prefork_launch_children (small_pool [] [100, 0] [] []) >>= reap_children)
      = some (1, [], [1, 0], [], []) := by
  decide

/-- C2 (code at the failing input).  One idle worker (pid 100, record 0); the write of a
message to it fails, a second worker is spawned (record 1) and takes the message.  Two
records have been allocated; record 0 ends on none of the three lists, because it was
popped from the idle stack before `del_prefork_child` went looking for it. -/
theorem write_failure_leaves_record_on_no_list :
    (match prefork_launch_children (small_pool [-1, 5] [] [] [false, false])
        >>= dispatch [60] with
      | .error _ => none
      | .ok f => some (f.heap.length, active_ring f, idle_stack f, free_stack f))
      = some (2, [1], [], []) := by
  decide

/-- C5 (code at the failing input).  The write to the idle worker (pid 100) fails and it
is killed; the write to the freshly spawned worker (pid 101) fails too, and the code
kills pid 100 a second time, through `cur_child`, and never pid 101.  When no worker was
popped before the spawn, `cur_child` is NULL and the same statement dereferences it. -/
theorem new_child_write_failure_kills_the_wrong_pid :
    summary (prefork_launch_children
        (small_pool [-1, -1, 5] [] [] [false, false, false, false]) >>= dispatch [60])
      = some (3, [2], [], [], [100, 100])
    ∧ fault_of (prefork_launch_children
        (small_pool [5, -1] [] [(0, [])] [false, false, false, false, false])
          >>= dispatch [60] >>= dispatch [61])
      = some Fault.null_deref := by
  decide

/-! ### Lists of a pool with NULL heads -/

theorem list_members_null (heap : List prefork_child) (n : Nat) :
    list_members heap n none = [] := by
  cases n <;> rfl

theorem ring_members_null (heap : List prefork_child) (first : Ptr) (n : Nat) :
    ring_members heap first n none = [] := by
  cases n <;> rfl

/-- C9.  `osrf_prefork_run` returns -1 and hands the pool back untouched (no
`launch_child`, no record, no event) when the application name is missing, when the
effective `min_children` exceeds the effective `max_children`, or when the latter exceeds
`ABS_MAX_CHILDREN`; `prefork_simple_init` returns non-zero in exactly the last two cases,
and otherwise returns 0 with a zero counter and three empty lists. -/
theorem config_errors_fatal_before_any_worker
    (appname : Option String) (max_req min_children max_children keepalive : Option Int)
    (bootstrap : Bool) (forker : prefork_simple) (max_requests lo hi : Int) :
    ((appname = none ∨ min_children.getD 3 > max_children.getD 10
        ∨ max_children.getD 10 > ABS_MAX_CHILDREN) →
      osrf_prefork_run appname max_req min_children max_children keepalive bootstrap forker
        = .ok (-1, forker))
    ∧ ((prefork_simple_init forker max_requests lo hi).1 ≠ 0
        ↔ (lo > hi ∨ hi > ABS_MAX_CHILDREN))
    ∧ (¬ (lo > hi ∨ hi > ABS_MAX_CHILDREN) →
        (prefork_simple_init forker max_requests lo hi).1 = 0
        ∧ (prefork_simple_init forker max_requests lo hi).2.current_num_children = 0
        ∧ (prefork_simple_init forker max_requests lo hi).2.first_child = none
        ∧ (prefork_simple_init forker max_requests lo hi).2.idle_list = none
        ∧ (prefork_simple_init forker max_requests lo hi).2.free_list = none
        ∧ active_ring (prefork_simple_init forker max_requests lo hi).2 = []
        ∧ idle_stack (prefork_simple_init forker max_requests lo hi).2 = []
        ∧ free_stack (prefork_simple_init forker max_requests lo hi).2 = []) := by
  refine ⟨?_, ?_, ?_⟩
  · intro h
    cases appname with
    | none => rfl
    | some name =>
      have h2 : min_children.getD 3 > max_children.getD 10
          ∨ max_children.getD 10 > ABS_MAX_CHILDREN := by
        rcases h with h | h | h
        · cases h
        · exact Or.inl h
        · exact Or.inr h
      cases bootstrap with
      | false => simp [osrf_prefork_run]
      | true =>
        rcases h2 with h2 | h2
        · simp [osrf_prefork_run, prefork_simple_init, h2]
        · by_cases h3 : min_children.getD 3 > max_children.getD 10
          · simp [osrf_prefork_run, prefork_simple_init, h3]
          · simp [osrf_prefork_run, prefork_simple_init, h3, h2]
  · unfold prefork_simple_init
    by_cases h1 : lo > hi
    · simp [h1]
    · by_cases h2 : hi > ABS_MAX_CHILDREN
      · simp [h1, h2]
      · simp [h1, h2]
  · intro h
    have h1 : ¬ lo > hi := fun c => h (Or.inl c)
    have h2 : ¬ hi > ABS_MAX_CHILDREN := fun c => h (Or.inr c)
    simp only [prefork_simple_init, h1, h2, if_false, active_ring, idle_stack, free_stack,
      list_members_null, ring_members_null]
    simp

/-- C9 at concrete settings: `min_children = 5` over `max_children = 4`. -/
theorem config_errors_fatal_before_any_worker_witness :
    osrf_prefork_run (some "opensrf.math") none (some 5) (some 4) none true
        (raw_forker [.forked 3 4 5 6 100] [] [] [] [] [])
      = .ok (-1, raw_forker [.forked 3 4 5 6 100] [] [] [] [] []) :=
  (config_errors_fatal_before_any_worker (some "opensrf.math") none (some 5) (some 4) none
    true (raw_forker [.forked 3 4 5 6 100] [] [] [] [] []) 1000 5 4).1
    (Or.inr (Or.inl (by decide)))

/-! ### The keepalive loop -/

theorem keepalive_loop_exit (keepalive : Int) (ws : List WaitResult) :
    ∀ (ev : List WorkerEvent) (k : Nat) (out : List WorkerEvent) (n : Nat),
      keepalive_loop keepalive ws ev k = some (out, n) →
      ∃ w, k < n ∧ ws[n - k - 1]? = some w
        ∧ out = ev ++ List.replicate (n - k) (WorkerEvent.queue_wait keepalive)
            ++ (if timed_out keepalive w then [WorkerEvent.timeout_status] else []) := by
  induction ws with
  | nil => intro ev k out n h; simp [keepalive_loop] at h
  | cons w rest ih =>
    intro ev k out n h
    unfold keepalive_loop at h
    simp only at h
    split at h
    · rename_i h1
      simp only [Option.some.injEq, Prod.mk.injEq] at h
      obtain ⟨rfl, rfl⟩ := h
      refine ⟨w, by omega, by simp, ?_⟩
      have : ¬ timed_out keepalive w := fun c => h1 c.1
      simp [this]
    · split at h
      · rename_i h1 h2
        simp only [Option.some.injEq, Prod.mk.injEq] at h
        obtain ⟨rfl, rfl⟩ := h
        refine ⟨w, by omega, by simp, ?_⟩
        have : ¬ timed_out keepalive w := fun c => by simp [c.2.1] at h2
        simp [this]
      · split at h
        · rename_i h1 h2 h3
          simp only [Option.some.injEq, Prod.mk.injEq] at h
          obtain ⟨rfl, rfl⟩ := h
          refine ⟨w, by omega, by simp, ?_⟩
          have : timed_out keepalive w :=
            ⟨not_not.mp h1, by simpa using h2, h3.1, h3.2⟩
          simp [this]
        · rename_i h1 h2 h3
          obtain ⟨w2, hk, hw, hout⟩ := ih _ _ _ _ h
          refine ⟨w2, by omega, ?_, ?_⟩
          · have e : n - k - 1 = (n - k.succ - 1) + 1 := by omega
            rw [e]
            simpa using hw
          · rw [hout]
            have e : n - k = (n - k.succ) + 1 := by omega
            rw [e, List.replicate_succ]
            simp

/-- C8.  When the keepalive loop exits after `n` waits, the last wait `w` is the one
that ended it, the drone has made `n` queue waits, and the timeout status follows them
exactly when `w` succeeded, left the session connected, received nothing and lasted at
least `keepalive` seconds; otherwise nothing is sent. -/
theorem keepalive_timeout_sent_exactly_on_timeout (keepalive : Int)
    (ws : List WaitResult) (out : List WorkerEvent) (n : Nat)
    (h : keepalive_loop keepalive ws [] 0 = some (out, n)) :
    ∃ w, 0 < n ∧ ws[n - 1]? = some w
      ∧ out = List.replicate n (WorkerEvent.queue_wait keepalive)
          ++ (if timed_out keepalive w then [WorkerEvent.timeout_status] else [])
      ∧ (WorkerEvent.timeout_status ∈ out ↔ timed_out keepalive w)
      ∧ (w.retval ≠ 0 → WorkerEvent.timeout_status ∉ out)
      ∧ (w.connected = false → WorkerEvent.timeout_status ∉ out)
      ∧ (w.finish - w.start < keepalive → WorkerEvent.timeout_status ∉ out) := by
  obtain ⟨w, hn, hw, hout⟩ := keepalive_loop_exit keepalive ws [] 0 out n h
  have hmem : WorkerEvent.timeout_status ∈ out ↔ timed_out keepalive w := by
    rw [hout]
    by_cases c : timed_out keepalive w
    · simp [c]
    · simp [c, List.mem_replicate]
  refine ⟨w, hn, by simpa using hw, by simpa using hout, hmem, ?_, ?_, ?_⟩
  · intro c1 c2
    exact c1 (hmem.mp c2).1
  · intro c1 c2
    have := (hmem.mp c2).2.1
    simp [c1] at this
  · intro c1 c2
    have := (hmem.mp c2).2.2.2
    omega

/-- C8 on a session with `keepalive = 2`: a wait that returns early after one second
with nothing received, then one that lasts the two seconds. -/
theorem keepalive_timeout_sent_exactly_on_timeout_witness :
    ∃ w, 0 < 2
      ∧ [WaitResult.mk 10 0 0 11 true, WaitResult.mk 11 0 0 13 true][2 - 1]? = some w
      ∧ [WorkerEvent.queue_wait 2, WorkerEvent.queue_wait 2, WorkerEvent.timeout_status]
          = List.replicate 2 (WorkerEvent.queue_wait 2)
            ++ (if timed_out 2 w then [WorkerEvent.timeout_status] else [])
      ∧ (WorkerEvent.timeout_status ∈
            [WorkerEvent.queue_wait 2, WorkerEvent.queue_wait 2, WorkerEvent.timeout_status]
          ↔ timed_out 2 w)
      ∧ (w.retval ≠ 0 → WorkerEvent.timeout_status ∉
            [WorkerEvent.queue_wait 2, WorkerEvent.queue_wait 2, WorkerEvent.timeout_status])
      ∧ (w.connected = false → WorkerEvent.timeout_status ∉
            [WorkerEvent.queue_wait 2, WorkerEvent.queue_wait 2, WorkerEvent.timeout_status])
      ∧ (w.finish - w.start < 2 → WorkerEvent.timeout_status ∉
            [WorkerEvent.queue_wait 2, WorkerEvent.queue_wait 2, WorkerEvent.timeout_status]) :=
  keepalive_timeout_sent_exactly_on_timeout 2
    [WaitResult.mk 10 0 0 11 true, WaitResult.mk 11 0 0 13 true]
    [WorkerEvent.queue_wait 2, WorkerEvent.queue_wait 2, WorkerEvent.timeout_status] 2
    (by decide)

/-! ### The serving loop of the drone -/

theorem read_loop_chunks (chunks : List ReadResult) :
    ∀ (gotdata : Bool) (gbuf : List Nat) (stop : ReadResult) (rest : List ReadResult),
      (∀ r ∈ chunks, r.n > 0) → stop.n ≤ 0 →
      read_loop (chunks ++ stop :: rest) gotdata gbuf
        = some (stop, gotdata || !chunks.isEmpty, gather gbuf chunks, rest) := by
  induction chunks with
  | nil =>
    intro gotdata gbuf stop rest _ hs
    have : ¬ stop.n > 0 := by omega
    simp [read_loop, this, gather]
  | cons c cs ih =>
    intro gotdata gbuf stop rest hc hs
    have hc0 : c.n > 0 := hc c (List.mem_cons_self _ _)
    have hcs : ∀ r ∈ cs, r.n > 0 := fun r hr => hc r (List.mem_cons_of_mem _ hr)
    have e : read_loop ((c :: cs) ++ stop :: rest) gotdata gbuf
        = read_loop (cs ++ stop :: rest) true
            (buffer_add gbuf (c.buf.take c.n.toNat)) := by
      show read_loop (c :: (cs ++ stop :: rest)) gotdata gbuf = _
      rw [read_loop]
      simp [hc0]
    rw [e, ih true _ stop rest hcs hs]
    simp [gather]

theorem takeWhile_nonzero (p : List Nat) (h : ∀ b ∈ p, b ≠ 0) :
    (p.takeWhile (fun b => b ≠ 0) = p)
    ∧ ∀ t, (p ++ 0 :: t).takeWhile (fun b => b ≠ 0) = p := by
  induction p with
  | nil => simp [List.takeWhile]
  | cons a as ih =>
    have ha : a ≠ 0 := h a (List.mem_cons_self _ _)
    have has : ∀ b ∈ as, b ≠ 0 := fun b hb => h b (List.mem_cons_of_mem _ hb)
    obtain ⟨ih1, ih2⟩ := ih has
    have hpa : decide (a ≠ 0) = true := decide_eq_true ha
    constructor
    · rw [List.takeWhile_cons]
      simp only [hpa, if_true, ih1]
    · intro t
      rw [List.cons_append, List.takeWhile_cons]
      simp only [hpa, if_true, ih2 t]

theorem buffer_add_chunks (cs : List (List Nat)) :
    ∀ (payload gbuf : List Nat), (∀ b ∈ payload, b ≠ 0) → (∀ c ∈ cs, c ≠ []) →
      cs.flatten = payload ++ [0] → cs.foldl buffer_add gbuf = gbuf ++ payload := by
  induction cs with
  | nil => intro payload gbuf _ _ h; simp at h
  | cons c rest ih =>
    intro payload gbuf hp hne hj
    have hrest : ∀ d ∈ rest, d ≠ [] := fun d hd => hne d (List.mem_cons_of_mem _ hd)
    simp only [List.flatten_cons] at hj
    simp only [List.foldl_cons]
    cases rest with
    | nil =>
      simp only [List.flatten_nil, List.append_nil] at hj
      subst hj
      show buffer_add gbuf (payload ++ [0]) = gbuf ++ payload
      unfold buffer_add
      rw [(takeWhile_nonzero payload hp).2 []]
    | cons d ds =>
      have hd : d ≠ [] := hne d (by simp)
      rcases List.append_eq_append_iff.mp hj with ⟨a, ha1, ha2⟩ | ⟨a, ha1, ha2⟩
      · -- the chunk lies inside the payload
        have hc : ∀ b ∈ c, b ≠ 0 := fun b hb => hp b (by rw [ha1]; simp [hb])
        have hpa : ∀ b ∈ a, b ≠ 0 := fun b hb => hp b (by rw [ha1]; simp [hb])
        rw [ih a _ hpa hrest ha2, ha1]
        unfold buffer_add
        rw [(takeWhile_nonzero c hc).1, List.append_assoc]
      · -- the chunk is the whole payload and only the NUL follows
        have hdl : 0 < d.length := List.length_pos.mpr hd
        have hlen := congrArg List.length ha2
        simp only [List.length_singleton, List.length_append, List.flatten_cons] at hlen
        have : a = [] := List.length_eq_zero.mp (by omega)
        subst this
        simp only [List.nil_append] at ha2
        simp only [List.append_nil] at ha1
        subst ha1
        rw [ih [] _ (by simp) hrest (by simpa using ha2.symm)]
        unfold buffer_add
        rw [(takeWhile_nonzero c hp).1, List.append_nil]

theorem process_request_events {child : prefork_child} {cc bs : Bool}
    {session : Option Session} {waits : List WaitResult} {out : List WorkerEvent}
    (h : prefork_child_process_request child cc bs session waits = some out) :
    ∀ e ∈ out, is_request e = false ∧ e ≠ WorkerEvent.status_write available 9 := by
  unfold prefork_child_process_request at h
  split at h
  · cases h
    simp [is_request]
  · split at h
    · cases h
      simp
    · split at h
      · cases h
        simp [is_request]
      · split at h
        · cases h
        · rename_i ev n hk
          cases h
          obtain ⟨w, _, _, hout⟩ := keepalive_loop_exit _ _ _ _ _ _ hk
          rw [hout]
          intro e he
          simp only [List.nil_append, List.mem_append, List.mem_replicate,
            List.mem_singleton] at he
          rcases he with (⟨_, rfl⟩ | he) | rfl
          · simp [is_request]
          · split at he
            · simp only [List.mem_singleton] at he
              subst he
              simp [is_request]
            · simp at he
          · simp [is_request]

theorem handled_events (child : prefork_child) (h : Handling) :
    (handled child h).countP is_request = 0
    ∧ (handled child h).count (WorkerEvent.status_write available 9) = 0 := by
  unfold handled
  cases hr : prefork_child_process_request child h.client_connected h.bootstrap
      h.session h.waits with
  | none => simp
  | some out =>
    have hev := process_request_events hr
    simp only [Option.getD_some]
    constructor
    · rw [List.countP_eq_zero]
      intro e he
      simp [(hev e he).1]
    · rw [List.count_eq_zero]
      intro he
      exact (hev _ he).2 rfl

theorem wait_pass_frame (child : prefork_child) (i : Int) (fr : Frame)
    (rest : List ReadResult) (h : Handling) (hs : List Handling)
    (hok : fr.succeeds) (hret : h.returns child) :
    prefork_child_wait_pass child i (fr.chunks ++ fr.stop :: rest) (h :: hs) []
      = some (PassEnd.next,
          WorkerEvent.request fr.data :: handled child h
            ++ (if i < child.max_requests - 1 then [WorkerEvent.status_write available 9]
                else []),
          rest, hs, []) := by
  obtain ⟨h1, h2, h3, h4, h5⟩ := hok
  obtain ⟨out, hout, hex⟩ := hret
  have hread : read_loop (fr.chunks ++ fr.stop :: rest) false []
      = some (fr.stop, true, fr.data, rest) := by
    rw [read_loop_chunks fr.chunks false [] fr.stop _ h2 h3]
    cases hc : fr.chunks with
    | nil => exact absurd hc h1
    | cons a b => simp [Frame.data, hc]
  have hn : ¬ (if fr.stop.errno = EAGAIN then (0 : Int) else fr.stop.n) < 0 := by
    rcases h5 with h5 | h5
    · simp [h5]
    · split <;> omega
  have hh : handled child h = out := by simp [handled, hout]
  unfold prefork_child_wait_pass
  simp only [hread, h4, if_false, hn, if_true, hout, hex, hh, Bool.false_eq_true]

theorem wait_loop_frames (child : prefork_child) (frames : List Frame) :
    ∀ (handlings : List Handling) (i : Int) (extra : List ReadResult)
      (later : List Handling) (ev : List WorkerEvent),
      (∀ fr ∈ frames, fr.succeeds) → handlings.length = frames.length →
      (∀ h ∈ handlings, h.returns child) → i + frames.length = child.max_requests →
      prefork_child_wait_loop child frames.length i
          (frames.flatMap Frame.reads ++ extra) (handlings ++ later) [] ev
        = some (ev ++ ((served child frames handlings).intersperse
            [WorkerEvent.status_write available 9]).flatten, false) := by
  induction frames with
  | nil =>
    intro handlings i extra later ev _ _ _ _
    simp [prefork_child_wait_loop, served]
  | cons fr rest ih =>
    intro handlings i extra later ev hok hlen hret hi
    cases handlings with
    | nil => simp at hlen
    | cons h hs =>
      have hrest : ∀ g ∈ rest, g.succeeds := fun g hg => hok g (List.mem_cons_of_mem _ hg)
      have hrets : ∀ g ∈ hs, g.returns child :=
        fun g hg => hret g (List.mem_cons_of_mem _ hg)
      have hlens : hs.length = rest.length := by simpa using hlen
      have e : (fr :: rest).flatMap Frame.reads ++ extra
          = fr.chunks ++ fr.stop :: (rest.flatMap Frame.reads ++ extra) := by
        simp [List.flatMap_cons, Frame.reads]
      have hlen2 : i + 1 + rest.length = child.max_requests := by
        simp only [List.length_cons] at hi
        push_cast at hi
        omega
      have hpass := wait_pass_frame child i fr (rest.flatMap Frame.reads ++ extra) h
        (hs ++ later) (hok fr (List.mem_cons_self _ _)) (hret h (List.mem_cons_self _ _))
      show prefork_child_wait_loop child (rest.length + 1) i _ (h :: (hs ++ later)) [] ev = _
      rw [e, prefork_child_wait_loop]
      simp only [hpass]
      rw [ih hs (i + 1) extra later _ hrest hlens hrets hlen2]
      cases rest with
      | nil =>
        have hnil : hs = [] := List.length_eq_zero.mp hlens
        subst hnil
        have : ¬ i < child.max_requests - 1 := by simp at hlen2; omega
        simp [this, served]
      | cons g gs =>
        cases hs with
        | nil => simp at hlens
        | cons h2 hs2 =>
          have : i < child.max_requests - 1 := by
            simp only [List.length_cons] at hlen2
            push_cast at hlen2
            omega
          simp [this, served, List.intersperse]

theorem intersperse_blocks (s : WorkerEvent) (hs : is_request s = false)
    (blocks : List (List WorkerEvent)) :
    (∀ b ∈ blocks, b.countP is_request = 1 ∧ b.count s = 0) →
    ((blocks.intersperse [s]).flatten.countP is_request = blocks.length
      ∧ (blocks.intersperse [s]).flatten.count s = blocks.length - 1) := by
  induction blocks with
  | nil => intro _; simp
  | cons b rest ih =>
    intro hb
    obtain ⟨b1, b2⟩ := hb b (List.mem_cons_self _ _)
    have hrest := ih (fun c hc => hb c (List.mem_cons_of_mem _ hc))
    cases rest with
    | nil => simp [List.intersperse, b1, b2]
    | cons c cs =>
      simp only [List.intersperse, List.flatten_cons, List.length_cons] at hrest ⊢
      obtain ⟨r1, r2⟩ := hrest
      constructor
      · rw [List.countP_append, List.countP_append, b1, r1]
        simp [hs]
        omega
      · rw [List.count_append, List.count_append, b2, r2]
        simp
        omega

theorem served_blocks (child : prefork_child) (frames : List Frame) :
    ∀ (handlings : List Handling), handlings.length = frames.length →
      (served child frames handlings).length = frames.length
      ∧ ∀ b ∈ served child frames handlings,
          b.countP is_request = 1 ∧ b.count (WorkerEvent.status_write available 9) = 0 := by
  induction frames with
  | nil => intro handlings _; simp [served]
  | cons fr rest ih =>
    intro handlings hlen
    cases handlings with
    | nil => simp at hlen
    | cons h hs =>
      obtain ⟨i1, i2⟩ := ih hs (by simpa using hlen)
      obtain ⟨c1, c2⟩ := handled_events child h
      constructor
      · simp only [served, List.zipWith_cons_cons, List.length_cons] at i1 ⊢
        rw [i1]
      · intro b hb
        simp only [served, List.zipWith_cons_cons, List.mem_cons] at hb
        rcases hb with rfl | hb
        · constructor
          · rw [List.countP_cons, c1]
            simp [is_request]
          · rw [List.count_cons, c2]
            simp
        · exact i2 b hb

/-- C6 as amended.  With `max_requests >= 1`, every request read succeeding and every
call of `prefork_child_process_request` returning, the drone makes that call once per
frame, `max_requests` times in all, writes the nine bytes `available` after each call
but the last, so `max_requests - 1` times, and then exits. -/
theorem drone_signals_available_after_all_but_last_request (child : prefork_child)
    (frames : List Frame) (handlings : List Handling) (extra : List ReadResult)
    (later : List Handling)
    (hmax : 1 ≤ child.max_requests)
    (hlen : (frames.length : Int) = child.max_requests)
    (hok : ∀ fr ∈ frames, fr.succeeds)
    (hh : handlings.length = frames.length)
    (hret : ∀ h ∈ handlings, h.returns child) :
    ∃ out,
      prefork_child_wait child (frames.flatMap Frame.reads ++ extra) (handlings ++ later)
        = some (out ++ [WorkerEvent.child_exit])
      ∧ out = ((served child frames handlings).intersperse
          [WorkerEvent.status_write available 9]).flatten
      ∧ ((out.countP is_request : Nat) : Int) = child.max_requests
      ∧ ((out.count (WorkerEvent.status_write available 9) : Nat) : Int)
          = child.max_requests - 1
      ∧ available.length = 9 := by
  have hn : child.max_requests.toNat = frames.length := by omega
  have hrun := wait_loop_frames child frames handlings 0 extra later []
    hok hh hret (by omega)
  obtain ⟨hl, hb⟩ := served_blocks child frames handlings hh
  obtain ⟨c1, c2⟩ := intersperse_blocks (WorkerEvent.status_write available 9) rfl _ hb
  refine ⟨_, ?_, rfl, ?_, ?_, rfl⟩
  · unfold prefork_child_wait
    rw [hn, hrun]
    simp
  · rw [c1, hl]
    exact hlen
  · rw [c2, hl]
    omega

/-- C6 for a drone with `max_requests = 2` reading the requests `a` and `b`; the second
call goes through the keepalive loop. -/
theorem drone_signals_available_after_all_but_last_request_witness :
    ∃ out,
      prefork_child_wait (drone 2)
          ([byte_frame 97, byte_frame 98].flatMap Frame.reads ++ [])
          ([plain_handling, session_handling] ++ [])
        = some (out ++ [WorkerEvent.child_exit])
      ∧ out = ((served (drone 2) [byte_frame 97, byte_frame 98]
            [plain_handling, session_handling]).intersperse
          [WorkerEvent.status_write available 9]).flatten
      ∧ ((out.countP is_request : Nat) : Int) = (drone 2).max_requests
      ∧ ((out.count (WorkerEvent.status_write available 9) : Nat) : Int)
          = (drone 2).max_requests - 1
      ∧ available.length = 9 :=
  drone_signals_available_after_all_but_last_request (drone 2)
    [byte_frame 97, byte_frame 98] [plain_handling, session_handling] [] []
    (by decide) (by decide)
    (by
      intro fr hfr
      simp only [List.mem_cons, List.mem_singleton, List.not_mem_nil, or_false] at hfr
      rcases hfr with rfl | rfl <;>
        exact ⟨by simp [byte_frame], by simp [byte_frame], by decide, by decide,
          Or.inl rfl⟩)
    rfl
    (by
      intro h hh
      simp only [List.mem_cons, List.mem_singleton, List.not_mem_nil, or_false] at hh
      rcases hh with rfl | rfl
      · exact ⟨[], rfl, rfl⟩
      · exact ⟨[WorkerEvent.queue_wait 5, WorkerEvent.session_free], by decide, rfl⟩)

/-- C6 as stated fails: every request read succeeds, but the transport client has lost
its connection and the reconnect fails during the first request.  The drone with
`max_requests = 2` ends inside `prefork_child_process_request`, after one call and
without writing `available`. -/
theorem drone_exits_during_first_request :
    (∀ fr ∈ [byte_frame 97, byte_frame 98], fr.succeeds)
    ∧ prefork_child_wait (drone 2) ([byte_frame 97, byte_frame 98].flatMap Frame.reads)
        [lost_handling, plain_handling]
      = some [WorkerEvent.request [97], WorkerEvent.child_exit] := by
  constructor
  · intro fr hfr
    simp only [List.mem_cons, List.mem_singleton, List.not_mem_nil, or_false] at hfr
    rcases hfr with rfl | rfl <;>
      exact ⟨by simp [byte_frame], by simp [byte_frame], by decide, by decide, Or.inl rfl⟩
  · decide

/-- C7 as amended.  Let the bytes `payload ++ [0]`, with no NUL inside `payload`, arrive
in any number of reads, each returning between 1 and `READ_BUFSIZE - 1` bytes, and let
`stop` be the read after them that returns no data.  The inner loop leaves exactly
`payload` in the buffer.  If `stop` returned 0 or failed with `EAGAIN`, and `errno` is not
`EPIPE`, the pass makes one call of `prefork_child_process_request`, with `payload`, and
no other.  Otherwise the pass leaves the loop without any call. -/
theorem request_frame_reassembled_once (child : prefork_child) (payload : List Nat)
    (chunks : List ReadResult) (stop : ReadResult) (rest : List ReadResult) (i : Int)
    (h : Handling) (hs : List Handling)
    (hp : ∀ b ∈ payload, b ≠ 0)
    (hc : ∀ r ∈ chunks, 0 < r.n ∧ r.n ≤ (READ_BUFSIZE : Int) - 1 ∧ r.n.toNat ≤ r.buf.length)
    (hj : (chunks.map (fun r => r.buf.take r.n.toNat)).flatten = payload ++ [0])
    (hstop : stop.n ≤ 0) :
    read_loop (chunks ++ stop :: rest) false [] = some (stop, true, payload, rest)
    ∧ (stop.errno ≠ EPIPE ∧ (stop.errno = EAGAIN ∨ stop.n = 0) →
        ∀ out, prefork_child_process_request child h.client_connected h.bootstrap
            h.session h.waits = some out →
          prefork_child_wait_pass child i (chunks ++ stop :: rest) (h :: hs) []
            = some (if exited out then PassEnd.exited else PassEnd.next,
                WorkerEvent.request payload :: out
                  ++ (if exited out then []
                      else if i < child.max_requests - 1
                        then [WorkerEvent.status_write available 9] else []),
                rest, hs, if exited out then payload else [])
          ∧ (WorkerEvent.request payload :: out
                  ++ (if exited out then []
                      else if i < child.max_requests - 1
                        then [WorkerEvent.status_write available 9] else [])).countP
              is_request = 1)
    ∧ (stop.errno = EPIPE ∨ (stop.errno ≠ EAGAIN ∧ stop.n < 0) →
        prefork_child_wait_pass child i (chunks ++ stop :: rest) (h :: hs) []
          = some (PassEnd.left, [], rest, h :: hs, payload)) := by
  have hpos : ∀ r ∈ chunks, r.n > 0 := fun r hr => (hc r hr).1
  have hne : ∀ c ∈ chunks.map (fun r => r.buf.take r.n.toNat), c ≠ [] := by
    intro c hcm
    obtain ⟨r, hr, rfl⟩ := List.mem_map.mp hcm
    obtain ⟨h1, _, h3⟩ := hc r hr
    intro hnil
    have hl := congrArg List.length hnil
    simp only [List.length_take, List.length_nil] at hl
    omega
  have hg : gather [] chunks = payload := by
    have e : gather [] chunks
        = (chunks.map (fun r => r.buf.take r.n.toNat)).foldl buffer_add [] := by
      unfold gather
      rw [List.foldl_map]
    rw [e, buffer_add_chunks _ payload [] hp hne hj, List.nil_append]
  have hchunks : chunks ≠ [] := by
    intro hnil
    subst hnil
    simp at hj
  have hread : read_loop (chunks ++ stop :: rest) false []
      = some (stop, true, payload, rest) := by
    rw [read_loop_chunks chunks false [] stop rest hpos hstop, hg]
    cases chunks with
    | nil => exact absurd rfl hchunks
    | cons a b => simp
  refine ⟨hread, ?_, ?_⟩
  · intro hacc out hout
    obtain ⟨h4, h5⟩ := hacc
    have hn : ¬ (if stop.errno = EAGAIN then (0 : Int) else stop.n) < 0 := by
      rcases h5 with h5 | h5
      · simp [h5]
      · split <;> omega
    have hev := process_request_events hout
    have hcount : out.countP is_request = 0 := by
      rw [List.countP_eq_zero]
      intro e he
      simp [(hev e he).1]
    constructor
    · unfold prefork_child_wait_pass
      simp only [hread, h4, if_false, hn, if_true, hout]
      cases hex : exited out <;> simp
    · rw [List.countP_append, List.countP_cons, hcount]
      cases hex : exited out
      · by_cases hi : i < child.max_requests - 1 <;> simp [hi, is_request]
      · simp [is_request]
  · intro hdrop
    unfold prefork_child_wait_pass
    simp only [hread]
    rcases hdrop with h4 | ⟨h5, h6⟩
    · simp [h4]
    · by_cases h4 : stop.errno = EPIPE
      · simp [h4]
      · simp [h4, h5, h6]

/-- C7 for the payload `<a>` arriving as `<a` and then `>` with the NUL, after which the
pipe is drained: the first pass of a drone with `max_requests = 1000` makes the one call
and then writes `available`. -/
theorem request_frame_reassembled_once_witness :
    read_loop ([ReadResult.mk 2 [60, 97] 0, ReadResult.mk 2 [62, 0] 0]
        ++ ReadResult.mk (-1) [] EAGAIN :: []) false []
      = some (ReadResult.mk (-1) [] EAGAIN, true, [60, 97, 62], [])
    ∧ prefork_child_wait_pass (drone 1000) 0
        ([ReadResult.mk 2 [60, 97] 0, ReadResult.mk 2 [62, 0] 0]
          ++ ReadResult.mk (-1) [] EAGAIN :: []) (plain_handling :: []) []
      = some (PassEnd.next,
          [WorkerEvent.request [60, 97, 62], WorkerEvent.status_write available 9],
          [], [], []) :=
  ⟨(request_frame_reassembled_once (drone 1000) [60, 97, 62]
      [ReadResult.mk 2 [60, 97] 0, ReadResult.mk 2 [62, 0] 0]
      (ReadResult.mk (-1) [] EAGAIN) [] 0 plain_handling []
      (by decide)
      (by
        intro r hr
        simp only [List.mem_cons, List.mem_singleton, List.not_mem_nil, or_false] at hr
        rcases hr with rfl | rfl <;> decide)
      (by decide) (by decide)).1,
   ((request_frame_reassembled_once (drone 1000) [60, 97, 62]
      [ReadResult.mk 2 [60, 97] 0, ReadResult.mk 2 [62, 0] 0]
      (ReadResult.mk (-1) [] EAGAIN) [] 0 plain_handling []
      (by decide)
      (by
        intro r hr
        simp only [List.mem_cons, List.mem_singleton, List.not_mem_nil, or_false] at hr
        rcases hr with rfl | rfl <;> decide)
      (by decide) (by decide)).2.1 ⟨by decide, Or.inl rfl⟩ [] rfl).1⟩

/-- C7 as stated fails.  The frame `<a>` arrives whole, in two reads, and the next read
fails with `EINTR` (4): the drone leaves the serving loop and exits, and the frame is
never handed to `prefork_child_process_request`.  The same frame arrives with a read
that finds the pipe drained between its two pieces: the drone hands over `<a` and then
`>`, two calls, neither with the payload. -/
theorem frame_dropped_when_next_read_fails :
    prefork_child_wait (drone 1000)
        [ReadResult.mk 2 [60, 97] 0, ReadResult.mk 2 [62, 0] 0, ReadResult.mk (-1) [] 4]
        [plain_handling]
      = some [WorkerEvent.child_exit]
    ∧ prefork_child_wait (drone 2)
        [ReadResult.mk 2 [60, 97] 0, ReadResult.mk (-1) [] EAGAIN,
          ReadResult.mk 2 [62, 0] 0, ReadResult.mk (-1) [] EAGAIN]
        [plain_handling, plain_handling]
      = some [WorkerEvent.request [60, 97], WorkerEvent.status_write available 9,
          WorkerEvent.request [62], WorkerEvent.child_exit] := by
  decide

/-! ### The counter and the bounds through the pool operations -/

theorem bind_ok {α β : Type} {m : Except Fault α} {k : α → Except Fault β} {b : β}
    (h : (m >>= k) = .ok b) : ∃ a, m = .ok a ∧ k a = .ok b := by
  cases m with
  | error e => cases h
  | ok a => exact ⟨a, rfl, h⟩

theorem same_count_refl (f : prefork_simple) : same_count f f := ⟨rfl, rfl, rfl⟩

theorem same_count_trans {f g h : prefork_simple} (a : same_count f g)
    (b : same_count g h) : same_count f h :=
  ⟨b.1.trans a.1, b.2.1.trans a.2.1, b.2.2.trans a.2.2⟩

theorem store_same {f g : prefork_simple} {p : Ptr} {c : prefork_child}
    (h : store f p c = .ok g) : same_count f g := by
  unfold store at h
  split at h
  · cases h
  · split at h
    · cases h
      exact ⟨rfl, rfl, rfl⟩
    · cases h

theorem set_next_same {f g : prefork_simple} {p v : Ptr}
    (h : set_next f p v = .ok g) : same_count f g := by
  unfold set_next at h
  obtain ⟨c, _, hk⟩ := bind_ok h
  exact store_same hk

theorem set_prev_same {f g : prefork_simple} {p v : Ptr}
    (h : set_prev f p v = .ok g) : same_count f g := by
  unfold set_prev at h
  obtain ⟨c, _, hk⟩ := bind_ok h
  exact store_same hk

theorem prefork_child_free_same {f g : prefork_simple} {p : Ptr}
    (h : prefork_child_free f p = .ok g) : same_count f g := by
  unfold prefork_child_free at h
  obtain ⟨c, _, hk⟩ := bind_ok h
  obtain ⟨f2, h2, hk2⟩ := bind_ok hk
  have := store_same h2
  cases hk2
  exact this

theorem prefork_child_init_same {f g : prefork_simple} {d0 d1 s0 s1 : Int} {p : Ptr}
    (h : prefork_child_init f d0 d1 s0 s1 = .ok (p, g)) : same_count f g := by
  unfold prefork_child_init at h
  split at h
  · obtain ⟨c, _, hk⟩ := bind_ok h
    obtain ⟨f2, h2, hk2⟩ := bind_ok hk
    have := store_same h2
    cases hk2
    exact this
  · cases h
    exact ⟨rfl, rfl, rfl⟩

theorem add_prefork_child_same {f g : prefork_simple} {p : Ptr}
    (h : add_prefork_child f p = .ok g) : same_count f g := by
  unfold add_prefork_child at h
  split at h
  · obtain ⟨f2, h2, hk2⟩ := bind_ok h
    have a := set_next_same h2
    exact same_count_trans (same_count_trans ⟨rfl, rfl, rfl⟩ a) (set_prev_same hk2)
  · obtain ⟨c, _, hk⟩ := bind_ok h
    obtain ⟨f2, h2, hk2⟩ := bind_ok hk
    obtain ⟨f3, h3, hk3⟩ := bind_ok hk2
    obtain ⟨f4, h4, hk4⟩ := bind_ok hk3
    exact same_count_trans (set_next_same h2)
      (same_count_trans (set_prev_same h3)
        (same_count_trans (set_next_same h4) (set_prev_same hk4)))

theorem del_prefork_child_same {f g : prefork_simple} {pid : Int}
    (h : del_prefork_child f pid = .ok g) : same_count f g := by
  unfold del_prefork_child at h
  split at h
  · cases h
    exact same_count_refl _
  · obtain ⟨cur, _, hk⟩ := bind_ok h
    obtain ⟨c, _, hk⟩ := bind_ok hk
    split at hk
    · split at hk
      · dsimp only at hk
        have a := prefork_child_free_same hk
        exact same_count_trans ⟨rfl, rfl, rfl⟩ a
      · dsimp only at hk
        obtain ⟨f2, h2, hk⟩ := bind_ok hk
        obtain ⟨c2, _, hk⟩ := bind_ok hk
        obtain ⟨f3, h3, hk⟩ := bind_ok hk
        have a := set_next_same h2
        have b : same_count f
            (if f.first_child = cur then { f with first_child := c.next } else f) := by
          split <;> exact ⟨rfl, rfl, rfl⟩
        exact same_count_trans (same_count_trans b a)
          (same_count_trans (set_prev_same h3) (prefork_child_free_same hk))
    · obtain ⟨⟨prev, cur2⟩, _, hk⟩ := bind_ok hk
      dsimp only at hk
      split at hk
      · cases hk
        exact same_count_refl _
      · obtain ⟨c3, _, hk⟩ := bind_ok hk
        split at hk
        · obtain ⟨f2, h2, hk⟩ := bind_ok hk
          exact same_count_trans (set_next_same h2) (prefork_child_free_same hk)
        · obtain ⟨f2, h2, hk⟩ := bind_ok hk
          cases h2
          have a := prefork_child_free_same hk
          exact same_count_trans ⟨rfl, rfl, rfl⟩ a

/-- What `launch_child` may do to the counter: leave it, or add one. -/
theorem launch_child_count {f g : prefork_simple} {p : Ptr}
    (h : launch_child f = .ok (p, g)) :
    g.min_children = f.min_children ∧ g.max_children = f.max_children
      ∧ f.current_num_children ≤ g.current_num_children
      ∧ g.current_num_children ≤ f.current_num_children + 1 := by
  unfold launch_child at h
  split at h
  · cases h
  · dsimp only at h
    split at h
    · cases h
      exact ⟨rfl, rfl, le_refl _, by simp [log]⟩
    · cases h
      exact ⟨rfl, rfl, le_refl _, by simp [log]⟩
    · obtain ⟨⟨child, f1⟩, h1, hk⟩ := bind_ok h
      have a := prefork_child_init_same h1
      dsimp only at hk
      split at hk
      · obtain ⟨f2, h2, hk⟩ := bind_ok hk
        have b := prefork_child_free_same h2
        cases hk
        obtain ⟨a1, a2, a3⟩ := a
        obtain ⟨b1, b2, b3⟩ := b
        simp only [log] at a1 a2 a3
        exact ⟨by rw [b1, a1], by rw [b2, a2], by rw [b3, a3], by rw [b3, a3]; omega⟩
      · obtain ⟨f2, h2, hk⟩ := bind_ok hk
        have b := set_next_same h2
        split at hk
        · obtain ⟨c, _, hk⟩ := bind_ok hk
          obtain ⟨f3, h3, hk⟩ := bind_ok hk
          have d := store_same h3
          cases hk
          obtain ⟨a1, a2, a3⟩ := a
          obtain ⟨b1, b2, b3⟩ := b
          obtain ⟨d1, d2, d3⟩ := d
          simp only [log] at a1 a2 a3
          simp only at d1 d2 d3
          exact ⟨by rw [d1, b1, a1], by rw [d2, b2, a2], by rw [d3, b3, a3]; omega,
            by rw [d3, b3, a3]⟩
        · cases hk

theorem reap_bury_count (n : Nat) :
    ∀ {f g : prefork_simple}, reap_bury n f = .ok g →
      g.min_children = f.min_children ∧ g.max_children = f.max_children
        ∧ g.current_num_children ≤ f.current_num_children := by
  induction n with
  | zero => intro f g h; cases h
  | succ n ih =>
    intro f g h
    unfold reap_bury at h
    split at h
    · cases h
    · dsimp only at h
      split at h
      · obtain ⟨f2, h2, hk⟩ := bind_ok h
        obtain ⟨a1, a2, a3⟩ := del_prefork_child_same h2
        obtain ⟨b1, b2, b3⟩ := ih hk
        simp only at a1 a2 a3
        exact ⟨by rw [b1, a1], by rw [b2, a2], by omega⟩
      · cases h
        exact ⟨rfl, rfl, le_refl _⟩

theorem reap_spawn_within (lo hi : Int) (hlh : lo ≤ hi) (n : Nat) :
    ∀ {f g : prefork_simple}, reap_spawn n f = .ok g → within lo hi f →
      within lo hi g ∧ lo ≤ g.current_num_children := by
  induction n with
  | zero => intro f g h; cases h
  | succ n ih =>
    intro f g h hw
    unfold reap_spawn at h
    split at h
    · rename_i hlt
      obtain ⟨⟨p, f2⟩, h2, hk⟩ := bind_ok h
      obtain ⟨a1, a2, _, a4⟩ := launch_child_count h2
      obtain ⟨w1, w2, w3⟩ := hw
      exact ih hk ⟨by rw [a1, w1], by rw [a2, w2], by omega⟩
    · rename_i hlt
      cases h
      exact ⟨hw, by rw [← hw.1]; omega⟩

theorem reap_children_within (lo hi : Int) (hlh : lo ≤ hi) {f g : prefork_simple}
    (h : reap_children f = .ok g) (hw : within lo hi f) :
    within lo hi g ∧ lo ≤ g.current_num_children := by
  unfold reap_children at h
  obtain ⟨f2, h2, hk⟩ := bind_ok h
  obtain ⟨a1, a2, a3⟩ := reap_bury_count _ h2
  obtain ⟨w1, w2, w3⟩ := hw
  exact reap_spawn_within lo hi hlh _ hk ⟨by rw [a1, w1], by rw [a2, w2], by omega⟩

theorem reap_spawn_floor (n : Nat) :
    ∀ {f g : prefork_simple}, reap_spawn n f = .ok g →
      g.min_children = f.min_children ∧ g.min_children ≤ g.current_num_children := by
  induction n with
  | zero => intro f g h; cases h
  | succ n ih =>
    intro f g h
    unfold reap_spawn at h
    split at h
    · obtain ⟨⟨p, f2⟩, h2, hk⟩ := bind_ok h
      obtain ⟨a1, _, _, _⟩ := launch_child_count h2
      obtain ⟨b1, b2⟩ := ih hk
      exact ⟨by rw [b1, a1], b2⟩
    · rename_i hlt
      cases h
      exact ⟨rfl, by omega⟩

theorem reap_if_dead_within (lo hi : Int) (hlh : lo ≤ hi) {f g : prefork_simple}
    (h : reap_if_dead f = .ok g) (hw : within lo hi f) : within lo hi g := by
  unfold reap_if_dead at h
  split at h
  · cases h
  · dsimp only at h
    split at h
    · exact (reap_children_within lo hi hlh h hw).1
    · cases h
      exact hw

theorem within_of_same {lo hi : Int} {f g : prefork_simple} (hw : within lo hi f)
    (hs : same_count f g) : within lo hi g :=
  ⟨hs.1.trans hw.1, hs.2.1.trans hw.2.1, by rw [hs.2.2]; exact hw.2.2⟩

theorem check_children_loop_same (read_set : List Int) (select_ret : Int) (n : Nat) :
    ∀ {num_handled : Int} {cur : Ptr} {f g : prefork_simple},
      check_children_loop read_set select_ret n num_handled cur f = .ok g →
      same_count f g := by
  induction n with
  | zero =>
    intro num_handled cur f g h
    unfold check_children_loop at h
    split at h
    · cases h
      exact same_count_refl _
    · cases h
  | succ n ih =>
    intro num_handled cur f g h
    unfold check_children_loop at h
    split at h
    · obtain ⟨c, _, hk⟩ := bind_ok h
      split at hk
      · dsimp only at hk
        have z : same_count f (log f (Event.read c.read_status_fd)) := ⟨rfl, rfl, rfl⟩
        split at hk
        · obtain ⟨f5, h5, hk⟩ := bind_ok hk
          obtain ⟨c5, _, hk⟩ := bind_ok hk
          obtain ⟨f6, h6, hk⟩ := bind_ok hk
          obtain ⟨f7, h7, hk⟩ := bind_ok hk
          obtain ⟨f8, h8, hk⟩ := bind_ok hk
          obtain ⟨c8, _, hk⟩ := bind_ok hk
          have x := set_prev_same h5
          have y := set_next_same h6
          have u := set_prev_same h7
          have v := set_next_same h8
          have e := ih hk
          have t : same_count (log f (Event.read c.read_status_fd)) f5 := by
            refine same_count_trans ?_ x
            split <;> exact ⟨rfl, rfl, rfl⟩
          exact same_count_trans z (same_count_trans t (same_count_trans y
            (same_count_trans u (same_count_trans v (same_count_trans ⟨rfl, rfl, rfl⟩ e)))))
        · obtain ⟨f5, h5, hk⟩ := bind_ok hk
          cases h5
          obtain ⟨f7, h7, hk⟩ := bind_ok hk
          obtain ⟨f8, h8, hk⟩ := bind_ok hk
          obtain ⟨c8, _, hk⟩ := bind_ok hk
          have u := set_prev_same h7
          have v := set_next_same h8
          have e := ih hk
          exact same_count_trans z (same_count_trans u
            (same_count_trans v (same_count_trans ⟨rfl, rfl, rfl⟩ e)))
      · exact ih hk
    · cases h
      exact same_count_refl _

theorem check_children_within (lo hi : Int) (hlh : lo ≤ hi) {f g : prefork_simple}
    {forever : Bool} (h : check_children f forever = .ok g) (hw : within lo hi f) :
    within lo hi g := by
  unfold check_children at h
  obtain ⟨f1, h1, hk⟩ := bind_ok h
  have w1 := reap_if_dead_within lo hi hlh h1 hw
  split at hk
  · cases hk
    exact w1
  · obtain ⟨f2, h2, hk⟩ := bind_ok hk
    have w2 := reap_if_dead_within lo hi hlh h2 w1
    obtain ⟨fds, _, hk⟩ := bind_ok hk
    dsimp only at hk
    split at hk
    · cases hk
    · split at hk
      · cases hk
        exact ⟨w2.1, w2.2.1, w2.2.2⟩
      · have a := check_children_loop_same _ _ _ hk
        exact within_of_same (f := { f2 with selects := _ }) ⟨w2.1, w2.2.1, w2.2.2⟩ a

theorem dispatch_idle_same (msg_data : List Nat) (n : Nat) :
    ∀ {cur : Ptr} {f g : prefork_simple} {honored : Bool} {last : Ptr},
      dispatch_idle msg_data n cur f = .ok (honored, last, g) → same_count f g := by
  induction n with
  | zero => intro cur f g honored last h; cases h
  | succ n ih =>
    intro cur f g honored last h
    unfold dispatch_idle at h
    split at h
    · cases h
      exact same_count_refl _
    · dsimp only at h
      obtain ⟨c, _, hk⟩ := bind_ok h
      obtain ⟨f2, h2, hk⟩ := bind_ok hk
      have a := set_next_same h2
      split at hk
      · cases hk
      · split at hk
        · obtain ⟨f3, h3, hk⟩ := bind_ok hk
          have b := del_prefork_child_same h3
          have e := ih hk
          exact same_count_trans (same_count_trans ⟨rfl, rfl, rfl⟩ a)
            (same_count_trans (same_count_trans ⟨rfl, rfl, rfl⟩ b) e)
        · obtain ⟨f3, h3, hk⟩ := bind_ok hk
          have b := add_prefork_child_same h3
          cases hk
          exact same_count_trans (same_count_trans ⟨rfl, rfl, rfl⟩ a)
            (same_count_trans ⟨rfl, rfl, rfl⟩ b)

theorem dispatch_new_within (lo hi : Int) (msg_data : List Nat) {cur : Ptr}
    {f g : prefork_simple} {honored : Bool}
    (h : dispatch_new msg_data cur f = .ok (honored, g)) (hw : within lo hi f) :
    within lo hi g := by
  unfold dispatch_new at h
  split at h
  · rename_i hlt
    obtain ⟨⟨p, f1⟩, h1, hk⟩ := bind_ok h
    obtain ⟨a1, a2, _, a4⟩ := launch_child_count h1
    have w1 : within lo hi f1 :=
      ⟨a1.trans hw.1, a2.trans hw.2.1, by have := hw.2.1; omega⟩
    dsimp only at hk
    split at hk
    · cases hk
      exact w1
    · obtain ⟨nc, _, hk⟩ := bind_ok hk
      obtain ⟨f2, h2, hk⟩ := bind_ok hk
      have b := set_next_same h2
      have w2 : within lo hi f2 :=
        within_of_same (f := { f1 with idle_list := nc.next }) ⟨w1.1, w1.2.1, w1.2.2⟩ b
      split at hk
      · cases hk
      · split at hk
        · obtain ⟨c, _, hk⟩ := bind_ok hk
          obtain ⟨c2, _, hk⟩ := bind_ok hk
          obtain ⟨f3, h3, hk⟩ := bind_ok hk
          have d := del_prefork_child_same h3
          cases hk
          exact within_of_same
            (f := log (log { f2 with writes := _ } _) _) ⟨w2.1, w2.2.1, w2.2.2⟩ d
        · obtain ⟨f3, h3, hk⟩ := bind_ok hk
          have d := add_prefork_child_same h3
          cases hk
          exact within_of_same
            (f := log { f2 with writes := _ } _) ⟨w2.1, w2.2.1, w2.2.2⟩ d
  · cases h
    exact hw

theorem dispatch_round_within (lo hi : Int) (hlh : lo ≤ hi) (msg_data : List Nat)
    {no_recheck : Bool} {f g : prefork_simple} {honored again : Bool}
    (h : dispatch_round msg_data no_recheck f = .ok (honored, again, g))
    (hw : within lo hi f) : within lo hi g := by
  unfold dispatch_round at h
  obtain ⟨f1, h1, hk⟩ := bind_ok h
  have w1 : within lo hi f1 := by
    split at h1
    · cases h1
      exact hw
    · exact check_children_within lo hi hlh h1 hw
  obtain ⟨⟨hon, cur, f2⟩, h2, hk⟩ := bind_ok hk
  have w2 := within_of_same w1 (dispatch_idle_same _ _ h2)
  dsimp only at hk
  obtain ⟨⟨hon3, f3⟩, h3, hk⟩ := bind_ok hk
  have w3 : within lo hi f3 := by
    split at h3
    · cases h3
      exact w2
    · exact dispatch_new_within lo hi msg_data h3 w2
  dsimp only at hk
  obtain ⟨⟨nr, f4⟩, h4, hk⟩ := bind_ok hk
  have w4 : within lo hi f4 := by
    split at h4
    · cases h4
      exact w3
    · cases h5 : check_children f3 true with
      | error e => rw [h5] at h4; cases h4
      | ok f5 =>
        rw [h5] at h4
        cases h4
        exact check_children_within lo hi hlh h5 w3
  dsimp only at hk
  obtain ⟨f6, h6, hk⟩ := bind_ok hk
  cases hk
  exact reap_if_dead_within lo hi hlh h6 w4

theorem dispatch_loop_within (lo hi : Int) (hlh : lo ≤ hi) (msg_data : List Nat)
    (n : Nat) :
    ∀ {no_recheck : Bool} {f g : prefork_simple},
      dispatch_loop msg_data n no_recheck f = .ok g → within lo hi f → within lo hi g := by
  induction n with
  | zero => intro no_recheck f g h; cases h
  | succ n ih =>
    intro no_recheck f g h hw
    unfold dispatch_loop at h
    obtain ⟨⟨honored, again, f1⟩, h1, hk⟩ := bind_ok h
    have w1 := dispatch_round_within lo hi hlh msg_data h1 hw
    dsimp only at hk
    split at hk
    · cases hk
      exact w1
    · exact ih hk w1

theorem dispatch_within (lo hi : Int) (hlh : lo ≤ hi) (msg_data : List Nat)
    {f g : prefork_simple} (h : dispatch msg_data f = .ok g) (hw : within lo hi f) :
    within lo hi g :=
  dispatch_loop_within lo hi hlh msg_data _ h hw

theorem prefork_launch_children_loop_count (n : Nat) :
    ∀ {f g : prefork_simple}, prefork_launch_children_loop n f = .ok g →
      g.min_children = f.min_children ∧ g.max_children = f.max_children
        ∧ g.current_num_children ≤ f.current_num_children + n := by
  induction n with
  | zero =>
    intro f g h
    cases h
    exact ⟨rfl, rfl, by simp⟩
  | succ n ih =>
    intro f g h
    unfold prefork_launch_children_loop at h
    obtain ⟨⟨p, f1⟩, h1, hk⟩ := bind_ok h
    obtain ⟨a1, a2, _, a4⟩ := launch_child_count h1
    obtain ⟨b1, b2, b3⟩ := ih hk
    refine ⟨b1.trans a1, b2.trans a2, ?_⟩
    push_cast
    omega

theorem run_ops_within (lo hi : Int) (hlh : lo ≤ hi) (ops : List PoolOp) :
    ∀ {f g : prefork_simple}, run_ops ops f = .ok g → within lo hi f → within lo hi g := by
  induction ops with
  | nil =>
    intro f g h hw
    cases h
    exact hw
  | cons op ops ih =>
    intro f g h hw
    unfold run_ops at h
    obtain ⟨f1, h1, hk⟩ := bind_ok h
    refine ih hk ?_
    cases op with
    | dispatch msg_data => exact dispatch_within lo hi hlh msg_data h1 hw
    | check_children forever => exact @check_children_within lo hi hlh f f1 forever h1 hw
    | reap_children => exact (reap_children_within lo hi hlh h1 hw).1

/-- C3 as amended.  Let `prefork_simple_init` accept the bounds `lo`, `hi` with
`0 <= hi`, let `prefork_launch_children` run on the pool it set up, and let any
operations (dispatch of a message, `check_children`, `reap_children`) follow, whatever
the environment answers.  Whenever they have all returned, the counter is at most
`max_children = hi`. -/
theorem current_num_children_never_exceeds_max (raw : prefork_simple)
    (max_requests lo hi : Int) (name : Option String) (kalive : Int)
    (ops : List PoolOp) (g : prefork_simple)
    (hpos : 0 ≤ hi)
    (hinit : (prefork_simple_init raw max_requests lo hi).1 = 0)
    (hrun : (prefork_launch_children
        { (prefork_simple_init raw max_requests lo hi).2 with
            appname := name, keepalive := kalive } >>= run_ops ops) = .ok g) :
    g.current_num_children ≤ g.max_children ∧ g.max_children = hi
      ∧ lo ≤ hi ∧ hi ≤ ABS_MAX_CHILDREN := by
  have h1 : ¬ lo > hi := by
    intro c
    simp [prefork_simple_init, c] at hinit
  have h2 : ¬ hi > ABS_MAX_CHILDREN := by
    intro c
    simp [prefork_simple_init, h1, c] at hinit
  obtain ⟨f1, hl, hk⟩ := bind_ok hrun
  unfold prefork_launch_children at hl
  obtain ⟨a1, a2, a3⟩ := prefork_launch_children_loop_count _ hl
  simp only [prefork_simple_init, h1, h2, if_false] at a1 a2 a3
  have hw : within lo hi f1 := by
    refine ⟨a1, a2, ?_⟩
    have : ((lo.toNat : Nat) : Int) ≤ hi := by omega
    omega
  obtain ⟨w1, w2, w3⟩ := run_ops_within lo hi (by omega) ops hk hw
  exact ⟨by rw [w2]; exact w3, w2, by omega, by omega⟩

/-- C3 as stated fails: the bounds `min_children = -2`, `max_children = -1` are accepted
by `prefork_simple_init`, no worker is launched, and the counter 0 exceeds
`max_children`. -/
theorem negative_max_children_is_exceeded :
    (prefork_simple_init (raw_forker [] [] [] [] [] []) 1000 (-2) (-1)).1 = 0
    ∧ (match prefork_launch_children
          { (prefork_simple_init (raw_forker [] [] [] [] [] []) 1000 (-2) (-1)).2 with
              appname := some "opensrf.math", keepalive := 5 } >>= run_ops [] with
        | .error _ => none
        | .ok g => some (g.current_num_children, g.max_children,
            decide (g.current_num_children ≤ g.max_children)))
      = some (0, -1, false) := by
  decide

/-- C4.  Whenever `reap_children` returns, the counter is at least `min_children`, which
it has not changed. -/
theorem reap_children_restores_min_children (f g : prefork_simple)
    (h : reap_children f = .ok g) :
    g.min_children = f.min_children ∧ g.min_children ≤ g.current_num_children := by
  unfold reap_children at h
  obtain ⟨f2, h2, hk⟩ := bind_ok h
  obtain ⟨a1, _, _⟩ := reap_bury_count _ h2
  obtain ⟨b1, b2⟩ := reap_spawn_floor _ hk
  exact ⟨b1.trans a1, b2⟩

theorem reap_spawn_spins (n : Nat) :
    ∀ (f : prefork_simple) (fuel : Nat),
      f.spawns = List.replicate n SpawnResult.data_pipe_error →
      f.current_num_children < f.min_children →
      reap_spawn fuel f = .error .script_end := by
  induction n with
  | zero =>
    intro f fuel hs hlow
    cases fuel with
    | zero => rfl
    | succ k =>
      have hl : launch_child f = .error .script_end := by
        unfold launch_child
        rw [hs]
        rfl
      unfold reap_spawn
      rw [if_pos hlow, hl]
      rfl
  | succ n ih =>
    intro f fuel hs hlow
    cases fuel with
    | zero => rfl
    | succ k =>
      have hl : launch_child f
          = .ok (none, log { f with spawns := List.replicate n .data_pipe_error } .launch) := by
        unfold launch_child
        rw [hs, List.replicate_succ]
      unfold reap_spawn
      rw [if_pos hlow, hl]
      exact ih _ k rfl hlow

/-- C10 (code at the failing input).  The single worker of a pool with
`min_children = 1` has died and every `pipe()` fails.  However many failed attempts the
script holds, `reap_children` asks for yet another one: it never returns. -/
theorem reap_children_retries_failed_spawn_forever (n : Nat) :
    reap_children (one_active_pool (List.replicate n SpawnResult.data_pipe_error))
      = .error .script_end := by
  have hb : reap_bury 3 (one_active_pool (List.replicate n SpawnResult.data_pipe_error))
      = .ok { one_active_pool (List.replicate n SpawnResult.data_pipe_error) with
                current_num_children := 0, first_child := none, free_list := some 0
                waits := []
                heap := [{ pid := 100, read_data_fd := 3, write_data_fd := 4
                           read_status_fd := 5, write_status_fd := 6, max_requests := 1000
                           appname := some "opensrf.math", keepalive := 5
                           next := none, prev := none }]
                events := [.close 3, .close 4, .close 5, .close 6] } := by
    rfl
  unfold reap_children
  have hlen : (one_active_pool (List.replicate n SpawnResult.data_pipe_error)).waits.length
      + 1 = 3 := rfl
  rw [hlen, hb]
  exact reap_spawn_spins n _ _ rfl (by show (0 : Int) < 1; decide)

/-- C3 as amended, on a pool with bounds 1 and 3 that launches one worker, dispatches a
message to it and reaps. -/
theorem current_num_children_never_exceeds_max_witness :
    serving_pool.current_num_children ≤ serving_pool.max_children
      ∧ serving_pool.max_children = 3 ∧ (1 : Int) ≤ 3 ∧ (3 : Int) ≤ ABS_MAX_CHILDREN :=
  current_num_children_never_exceeds_max
    (raw_forker [.forked 3 4 5 6 100, .forked 7 8 9 10 101] [5] [0] [] [false, false] [])
    1000 1 3 (some "opensrf.math") 5 [.dispatch [60], .reap_children] serving_pool
    (by decide) (by decide) rfl

/-- C4 on a pool whose single worker has died: `reap_children` returns with one worker
again. -/
theorem reap_children_restores_min_children_witness :
    reap_children (one_active_pool [.forked 7 8 9 10 101]) = .ok replaced_pool
      ∧ replaced_pool.min_children = (one_active_pool [.forked 7 8 9 10 101]).min_children
      ∧ replaced_pool.min_children ≤ replaced_pool.current_num_children :=
  ⟨rfl, reap_children_restores_min_children (one_active_pool [.forked 7 8 9 10 101])
    replaced_pool rfl⟩

/-! ### The cache client -/

/-- C11.  For every ceiling `_osrfCacheMaxSeconds` and every `ttl`, `osrfCachePutString`
with non-NULL key and value makes one `memcached_set` call, on the cleaned key, whose
expiration is the ceiling when `ttl <= 0`, `ttl` when `0 < ttl <= ceiling`, and the
ceiling when `ttl > ceiling`. -/
theorem put_string_clamps_ttl (md5sum : List Nat → List Nat) (cache : osrf_cache)
    (rc : Int) (key value : List Nat) (ttl : Int) :
    ∃ t, (osrfCachePutString md5sum cache rc (some key) (some value) ttl).2.calls
        = cache.calls
          ++ [CacheCall.set (_clean_key md5sum key) (value.takeWhile (fun b => b ≠ 0)) t]
      ∧ (ttl ≤ 0 → t = cache._osrfCacheMaxSeconds)
      ∧ (0 < ttl ∧ ttl ≤ cache._osrfCacheMaxSeconds → t = ttl)
      ∧ (ttl > cache._osrfCacheMaxSeconds → t = cache._osrfCacheMaxSeconds) := by
  refine ⟨if ttl ≤ 0 ∨ ttl > cache._osrfCacheMaxSeconds then cache._osrfCacheMaxSeconds
    else ttl, ?_, ?_, ?_, ?_⟩
  · unfold osrfCachePutString memcached_set
    by_cases hrc : rc = MEMCACHED_SUCCESS <;> simp [hrc]
  · intro h
    simp [h]
  · intro h
    have : ¬ (ttl ≤ 0 ∨ ttl > cache._osrfCacheMaxSeconds) := by omega
    simp [this]
  · intro h
    simp [h]

/-- C11 with a ceiling of 3600 seconds and a caller asking for a day. -/
theorem put_string_clamps_ttl_witness :
    ∃ t, (osrfCachePutString md5sum ⟨3600, [], []⟩ MEMCACHED_SUCCESS (some [107])
          (some [118]) 86400).2.calls
        = [] ++ [CacheCall.set (_clean_key md5sum [107])
            ([118].takeWhile (fun b => b ≠ 0)) t]
      ∧ ((86400 : Int) ≤ 0 → t = 3600)
      ∧ ((0 : Int) < 86400 ∧ (86400 : Int) ≤ 3600 → t = 86400)
      ∧ ((86400 : Int) > 3600 → t = 3600) :=
  put_string_clamps_ttl md5sum ⟨3600, [], []⟩ MEMCACHED_SUCCESS [107] [118] 86400

theorem lookup_entry_head (rest : List (List Nat × List Nat × Int)) (key value : List Nat)
    (t : Int) : lookup_entry ((key, value, t) :: rest) key = some value := by
  simp [lookup_entry, List.find?]

/-- C16.  On a backend that keeps what is set (both library calls return
`MEMCACHED_SUCCESS`), `osrfCacheGetString( k )` after `osrfCachePutString( k, v, t )`
returns `v`, for every key, short or long, and every C string `v`. -/
theorem get_string_after_put_string (md5sum : List Nat → List Nat) (cache : osrf_cache)
    (k v : List Nat) (t : Int) (hv : ∀ b ∈ v, b ≠ 0) :
    (osrfCacheGetString md5sum
        (osrfCachePutString md5sum cache MEMCACHED_SUCCESS (some k) (some v) t).2
        MEMCACHED_SUCCESS (some k)).1 = some v := by
  unfold osrfCacheGetString osrfCachePutString memcached_get memcached_set
  simp only [if_true]
  rw [lookup_entry_head, (takeWhile_nonzero v hv).1]

/-- C16 for the key ` a b` and the value `v`. -/
theorem get_string_after_put_string_witness :
    (osrfCacheGetString md5sum
        (osrfCachePutString md5sum ⟨3600, [], []⟩ MEMCACHED_SUCCESS (some [32, 97, 9, 98])
          (some [118]) 60).2
        MEMCACHED_SUCCESS (some [32, 97, 9, 98])).1 = some [118] :=
  get_string_after_put_string md5sum ⟨3600, [], []⟩ [32, 97, 9, 98] [118] 60 (by decide)

/-- C17.  Whatever the library returns, `osrfCachePutString`, `osrfCachePutObject` and
`osrfCacheRemove` return 0 when their pointer arguments are non-NULL, and -1 exactly
when one is NULL; `osrfCacheGetString` and `osrfCacheGetObject` return NULL whenever
`memcached_get` yields no data, and for a NULL key. -/
theorem cache_errors_are_swallowed (md5sum : List Nat → List Nat)
    (jsonObjectToJSON : jsonObject → List Nat) (jsonParse : List Nat → Option jsonObject)
    (cache : osrf_cache) (rc : Int) (seconds : Int) :
    (∀ key value : List Nat,
        (osrfCachePutString md5sum cache rc (some key) (some value) seconds).1 = 0)
    ∧ (∀ (key : List Nat) (obj : jsonObject),
        (osrfCachePutObject md5sum jsonObjectToJSON cache rc (some key) (some obj)
          seconds).1 = 0)
    ∧ (∀ key : List Nat, (osrfCacheRemove md5sum cache rc (some key)).1 = 0)
    ∧ (∀ key value : Option (List Nat),
        (osrfCachePutString md5sum cache rc key value seconds).1 = -1
          ↔ (key = none ∨ value = none))
    ∧ (∀ (key : Option (List Nat)) (obj : Option jsonObject),
        (osrfCachePutObject md5sum jsonObjectToJSON cache rc key obj seconds).1 = -1
          ↔ (key = none ∨ obj = none))
    ∧ (∀ key : Option (List Nat),
        (osrfCacheRemove md5sum cache rc key).1 = -1 ↔ key = none)
    ∧ (∀ key : List Nat, (memcached_get cache (_clean_key md5sum key) rc).1 = none →
        (osrfCacheGetString md5sum cache rc (some key)).1 = none
        ∧ (osrfCacheGetObject md5sum jsonParse cache rc (some key)).1 = none)
    ∧ (osrfCacheGetString md5sum cache rc none).1 = none
    ∧ (osrfCacheGetObject md5sum jsonParse cache rc none).1 = none := by
  refine ⟨fun _ _ => rfl, fun _ _ => rfl, fun _ => rfl, ?_, ?_, ?_, ?_, rfl, rfl⟩
  · intro key value
    cases key <;> cases value <;> simp [osrfCachePutString]
  · intro key obj
    cases key <;> cases obj <;> simp [osrfCachePutObject]
  · intro key
    cases key <;> simp [osrfCacheRemove]
  · intro key h
    constructor
    · simpa [osrfCacheGetString] using h
    · unfold osrfCacheGetObject
      simp only
      cases hg : memcached_get cache (_clean_key md5sum key) rc with
      | mk data c2 =>
        rw [hg] at h
        simp only at h
        subst h
        rfl

/-- C17 on an empty cache whose server is unreachable (the library returns code 3). -/
theorem cache_errors_are_swallowed_witness :
    (osrfCacheGetString md5sum ⟨3600, [], []⟩ 3 (some [107])).1 = none
    ∧ (osrfCacheGetObject md5sum (fun _ => none) ⟨3600, [], []⟩ 3 (some [107])).1 = none :=
  (cache_errors_are_swallowed md5sum (fun _ => []) (fun _ => none) ⟨3600, [], []⟩ 3
    60).2.2.2.2.2.2.1 [107] (by decide)

theorem clean_loop_eq_filter (k : List Nat) (h : ∀ b ∈ k, b ≠ 0) :
    clean_loop k = k.filter kept := by
  induction k with
  | nil => rfl
  | cons c rest ih =>
    have hc : c ≠ 0 := h c (List.mem_cons_self _ _)
    have hrest : ∀ b ∈ rest, b ≠ 0 := fun b hb => h b (List.mem_cons_of_mem _ hb)
    rw [clean_loop, if_neg hc, ih hrest]
    by_cases hs : (isspace c || iscntrl c) = true
    · simp [hs, kept, List.filter]
    · simp [hs, kept, List.filter]

theorem clean_loop_mem (k : List Nat) :
    ∀ c ∈ clean_loop k, c ≠ 0 ∧ kept c = true := by
  induction k with
  | nil => intro c hc; simp [clean_loop] at hc
  | cons a rest ih =>
    intro c hc
    rw [clean_loop] at hc
    by_cases ha : a = 0
    · simp [ha] at hc
    · rw [if_neg ha] at hc
      by_cases hs : (isspace a || iscntrl a) = true
      · rw [if_pos hs] at hc
        exact ih c hc
      · rw [if_neg hs] at hc
        rcases List.mem_cons.mp hc with rfl | hc
        · exact ⟨ha, by simpa [kept] using hs⟩
        · exact ih c hc

theorem clean_loop_fixed (l : List Nat) (h : ∀ c ∈ l, c ≠ 0 ∧ kept c = true) :
    clean_loop l = l := by
  induction l with
  | nil => rfl
  | cons a rest ih =>
    obtain ⟨ha, hk⟩ := h a (List.mem_cons_self _ _)
    have hrest : ∀ c ∈ rest, c ≠ 0 ∧ kept c = true :=
      fun c hc => h c (List.mem_cons_of_mem _ hc)
    have hs : ¬ (isspace a || iscntrl a) = true := by simpa [kept] using hk
    rw [clean_loop, if_neg ha, if_neg hs, ih hrest]

theorem clean_loop_length_le (k : List Nat) : (clean_loop k).length ≤ k.length := by
  induction k with
  | nil => simp [clean_loop]
  | cons a rest ih =>
    rw [clean_loop]
    split
    · simp
    · split
      · simp only [List.length_cons]
        omega
      · simp only [List.length_cons]
        omega

theorem hex_byte_kept (c : Nat)
    (h : (48 ≤ c ∧ c ≤ 57) ∨ (97 ≤ c ∧ c ≤ 102) ∨ (65 ≤ c ∧ c ≤ 70)) :
    c ≠ 0 ∧ kept c = true := by
  refine ⟨by omega, ?_⟩
  simp only [kept, isspace, iscntrl, Bool.not_eq_true', Bool.or_eq_false_iff,
    decide_eq_false_iff_not]
  omega

theorem shortened_kept : ∀ c ∈ shortened, c ≠ 0 ∧ kept c = true := by
  decide

/-- What `_clean_key` builds for a long key, when `md5sum` returns 32 hex digits. -/
theorem shortened_form (md5sum : List Nat → List Nat) (h : hex32 md5sum) (msg : List Nat) :
    strncat (strncat [] shortened 11) (md5sum msg) MAX_KEY_LEN = shortened ++ md5sum msg := by
  obtain ⟨hlen, hhex⟩ := h msg
  have hnz : ∀ b ∈ md5sum msg, b ≠ 0 := fun b hb => (hex_byte_kept b (hhex b hb)).1
  have h1 : strncat [] shortened 11 = shortened := by decide
  rw [h1]
  unfold strncat
  rw [(takeWhile_nonzero _ hnz).1, List.take_of_length_le]
  rw [hlen]
  decide

theorem clean_key_kept (md5sum : List Nat → List Nat) (h : hex32 md5sum) (key : List Nat) :
    (_clean_key md5sum key).length ≤ MAX_KEY_LEN
      ∧ ∀ c ∈ _clean_key md5sum key, c ≠ 0 ∧ kept c = true := by
  unfold _clean_key
  simp only
  split
  · rw [shortened_form md5sum h]
    obtain ⟨hlen, hhex⟩ := h (clean_loop key)
    constructor
    · rw [List.length_append, hlen]
      decide
    · intro c hc
      rcases List.mem_append.mp hc with hc | hc
      · exact shortened_kept c hc
      · exact hex_byte_kept c (hhex c hc)
  · rename_i hshort
    exact ⟨by omega, clean_loop_mem key⟩

/-- C12.  For a `md5sum` that returns 32 hexadecimal digits, cleaning a cleaned key
changes nothing, whether the key was short or was replaced by the shortened form. -/
theorem clean_key_idempotent (md5sum : List Nat → List Nat) (h : hex32 md5sum)
    (key : List Nat) :
    _clean_key md5sum (_clean_key md5sum key) = _clean_key md5sum key := by
  obtain ⟨hlen, hkept⟩ := clean_key_kept md5sum h key
  have hfix := clean_loop_fixed _ hkept
  generalize _clean_key md5sum key = r at hlen hfix
  unfold _clean_key
  simp only
  rw [hfix, if_neg (by omega)]

/-- C13.  For a `md5sum` that returns 32 hexadecimal digits, the key built by
`_clean_key` is at most `MAX_KEY_LEN` bytes long and holds no byte for which `isspace`
or `iscntrl` is true. -/
theorem clean_key_short_and_printable (md5sum : List Nat → List Nat) (h : hex32 md5sum)
    (key : List Nat) :
    (_clean_key md5sum key).length ≤ MAX_KEY_LEN
      ∧ MAX_KEY_LEN = 250
      ∧ ∀ c ∈ _clean_key md5sum key, isspace c = false ∧ iscntrl c = false := by
  obtain ⟨hlen, hkept⟩ := clean_key_kept md5sum h key
  refine ⟨hlen, rfl, ?_⟩
  intro c hc
  have := (hkept c hc).2
  simpa [kept] using this

/-- C14 as amended.  When the cleaned form of a key is longer than `MAX_KEY_LEN`, the
key built by `_clean_key` is `shortened_` followed by the digest of the cleaned form;
its first ten bytes are `shortened_`. -/
theorem long_key_is_shortened_digest_of_clean_form (md5sum : List Nat → List Nat)
    (h : hex32 md5sum) (key : List Nat) (hlong : (clean_loop key).length > MAX_KEY_LEN) :
    _clean_key md5sum key = shortened ++ md5sum (clean_loop key)
      ∧ (_clean_key md5sum key).take 10 = shortened := by
  have e : _clean_key md5sum key = shortened ++ md5sum (clean_loop key) := by
    unfold _clean_key
    simp only
    rw [if_pos hlong, shortened_form md5sum h]
  refine ⟨e, ?_⟩
  rw [e]
  have : shortened.length = 10 := rfl
  rw [List.take_append_of_le_length (by omega), List.take_of_length_le (by omega)]

theorem le_bytes_length (n : Nat) : ∀ x, (le_bytes n x).length = n := by
  induction n with
  | zero => intro x; rfl
  | succ n ih => intro x; simp [le_bytes, ih]

theorem hex_digit_range (n : Nat) (h : n < 16) :
    (48 ≤ hex_digit n ∧ hex_digit n ≤ 57) ∨ (97 ≤ hex_digit n ∧ hex_digit n ≤ 102)
      ∨ (65 ≤ hex_digit n ∧ hex_digit n ≤ 70) := by
  unfold hex_digit
  split <;> omega

theorem flatMap_hex_byte (l : List Nat) :
    (l.flatMap hex_byte).length = 2 * l.length
      ∧ ∀ c ∈ l.flatMap hex_byte,
          (48 ≤ c ∧ c ≤ 57) ∨ (97 ≤ c ∧ c ≤ 102) ∨ (65 ≤ c ∧ c ≤ 70) := by
  induction l with
  | nil => simp
  | cons b rest ih =>
    obtain ⟨ih1, ih2⟩ := ih
    constructor
    · simp only [List.flatMap_cons, List.length_append, ih1, hex_byte, List.length_cons,
        List.length_nil]
      omega
    · intro c hc
      simp only [List.flatMap_cons, List.mem_append, hex_byte, List.mem_cons,
        List.mem_singleton, List.not_mem_nil, or_false] at hc
      rcases hc with (rfl | rfl) | hc
      · exact hex_digit_range _ (Nat.mod_lt _ (by decide))
      · exact hex_digit_range _ (Nat.mod_lt _ (by decide))
      · exact ih2 c hc

/-- The modelled `md5sum` returns 32 hexadecimal digits. -/
theorem md5sum_hex32 : hex32 md5sum := by
  intro msg
  unfold md5sum
  generalize md5_blocks _ _ _ = st
  obtain ⟨a, b, c, d⟩ := st
  simp only
  obtain ⟨h1, h2⟩ :=
    flatMap_hex_byte (le_bytes 4 a ++ le_bytes 4 b ++ le_bytes 4 c ++ le_bytes 4 d)
  refine ⟨?_, h2⟩
  rw [h1]
  simp [le_bytes_length]

/-- The modelled `md5sum` gives the digest of `abc` that RFC 1321 lists,
`900150983cd24fb0d6963f7d28e17f72`. -/
theorem md5sum_abc :
    md5sum [97, 98, 99]
      = [57, 48, 48, 49, 53, 48, 57, 56, 51, 99, 100, 50, 52, 102, 98, 48,
         100, 54, 57, 54, 51, 102, 55, 100, 50, 56, 101, 49, 55, 102, 55, 50] := by
  set_option maxRecDepth 1000000 in
  decide

/-- C12 for the key ` a b` with a tab in the middle. -/
theorem clean_key_idempotent_witness :
    _clean_key md5sum (_clean_key md5sum [32, 97, 9, 98]) = _clean_key md5sum [32, 97, 9, 98] :=
  clean_key_idempotent md5sum md5sum_hex32 [32, 97, 9, 98]

/-- C13 for the key of a space and 251 letters. -/
theorem clean_key_short_and_printable_witness :
    (_clean_key md5sum long_key).length ≤ MAX_KEY_LEN
      ∧ MAX_KEY_LEN = 250
      ∧ ∀ c ∈ _clean_key md5sum long_key, isspace c = false ∧ iscntrl c = false :=
  clean_key_short_and_printable md5sum md5sum_hex32 long_key

/-- C14 as amended, for the key of a space and 251 letters. -/
theorem long_key_is_shortened_digest_of_clean_form_witness :
    _clean_key md5sum long_key = shortened ++ md5sum (clean_loop long_key)
      ∧ (_clean_key md5sum long_key).take 10 = shortened :=
  long_key_is_shortened_digest_of_clean_form md5sum md5sum_hex32 long_key
    (by set_option maxRecDepth 100000 in decide)

/-- C14 as stated fails: for the key of a space and 251 letters `a`, whose cleaned form
has 251 bytes, `_clean_key` does not return `shortened_` followed by the digest of the
key as given; it returns `shortened_` followed by the digest of the 251 letters. -/
theorem long_key_digest_is_not_of_the_original_key :
    (clean_loop long_key).length > MAX_KEY_LEN
      ∧ _clean_key md5sum long_key ≠ shortened ++ md5sum long_key
      ∧ _clean_key md5sum long_key = shortened ++ md5sum (List.replicate 251 97) := by
  set_option maxRecDepth 1000000 in
  decide

/-- C15.  Two keys (C strings) whose kept bytes are the same get the same key from
`_clean_key`; on a backend that keeps what is set, after `osrfCachePutString` on the
first and then on the second, the backend holds one entry under that key and a get
with the first key returns the second value. -/
theorem whitespace_variants_share_one_entry (md5sum : List Nat → List Nat)
    (cache : osrf_cache) (k1 k2 v1 v2 : List Nat) (t1 t2 : Int)
    (h1 : ∀ b ∈ k1, b ≠ 0) (h2 : ∀ b ∈ k2, b ≠ 0) (hv : ∀ b ∈ v2, b ≠ 0)
    (hk : k1.filter kept = k2.filter kept) :
    _clean_key md5sum k1 = _clean_key md5sum k2
      ∧ (osrfCacheGetString md5sum
          (osrfCachePutString md5sum
            (osrfCachePutString md5sum cache MEMCACHED_SUCCESS (some k1) (some v1) t1).2
            MEMCACHED_SUCCESS (some k2) (some v2) t2).2
          MEMCACHED_SUCCESS (some k1)).1 = some v2
      ∧ ((osrfCachePutString md5sum
            (osrfCachePutString md5sum cache MEMCACHED_SUCCESS (some k1) (some v1) t1).2
            MEMCACHED_SUCCESS (some k2) (some v2) t2).2.entries.filter
          (fun e => e.1 = _clean_key md5sum k1)).length = 1 := by
  have hc : clean_loop k1 = clean_loop k2 := by
    rw [clean_loop_eq_filter k1 h1, clean_loop_eq_filter k2 h2, hk]
  have hkey : _clean_key md5sum k1 = _clean_key md5sum k2 := by
    unfold _clean_key
    rw [hc]
  refine ⟨hkey, ?_, ?_⟩
  · have hget := get_string_after_put_string md5sum
      (osrfCachePutString md5sum cache MEMCACHED_SUCCESS (some k1) (some v1) t1).2
      k2 v2 t2 hv
    unfold osrfCacheGetString at hget ⊢
    simp only at hget ⊢
    rw [hkey]
    exact hget
  · rw [hkey]
    unfold osrfCachePutString memcached_set
    simp only [if_true]
    rw [List.filter_cons]
    simp only [decide_True, if_true, List.length_cons]
    rw [List.filter_filter]
    simp

/-- C15 for the keys ` a`, tab, `b`, newline and `ab`. -/
theorem whitespace_variants_share_one_entry_witness :
    _clean_key md5sum [32, 97, 9, 98, 10] = _clean_key md5sum [97, 98]
      ∧ (osrfCacheGetString md5sum
          (osrfCachePutString md5sum
            (osrfCachePutString md5sum ⟨3600, [], []⟩ MEMCACHED_SUCCESS
              (some [32, 97, 9, 98, 10]) (some [49]) 60).2
            MEMCACHED_SUCCESS (some [97, 98]) (some [50]) 60).2
          MEMCACHED_SUCCESS (some [32, 97, 9, 98, 10])).1 = some [50]
      ∧ ((osrfCachePutString md5sum
            (osrfCachePutString md5sum ⟨3600, [], []⟩ MEMCACHED_SUCCESS
              (some [32, 97, 9, 98, 10]) (some [49]) 60).2
            MEMCACHED_SUCCESS (some [97, 98]) (some [50]) 60).2.entries.filter
          (fun e => e.1 = _clean_key md5sum [32, 97, 9, 98, 10])).length = 1 :=
  whitespace_variants_share_one_entry md5sum ⟨3600, [], []⟩ [32, 97, 9, 98, 10] [97, 98]
    [49] [50] 60 60 (by decide) (by decide) (by decide) (by decide)

/-! ### Router registration -/

theorem register_listed_eq (appname : String) (reg : Registration)
    (items : List jsonObject) :
    register_listed appname reg items
      = List.replicate
          (items.countP (fun item => jsonObjectGetString (some item) = some appname)) reg := by
  induction items with
  | nil => rfl
  | cons item rest ih =>
    rw [register_listed, List.countP_cons]
    cases hs : jsonObjectGetString (some item) with
    | none => simp [ih]
    | some service =>
      by_cases he : appname = service
      · subst he
        simp [ih, List.replicate_succ]
      · have : ¬ service = appname := fun c => he c.symm
        simp [ih, he, this]

/-- C18 as amended.  With `reg` the registration for this application and the entry's
`name` and `domain`: when `services` is a hash whose `service` member is an array, one
registration is sent per item naming the application; when that member is a string, one
is sent if it names the application and none otherwise; when `services` is a hash with
no `service` member, or one that is neither array nor string, none is sent; when
`services` is absent or is not a hash, exactly one is sent. -/
theorem router_chunk_registrations (appname : String) (routerChunk : jsonObject)
    (reg : Registration)
    (hreg : reg =
      { appname := appname
        routerName := jsonObjectGetString (jsonObjectGetKeyConst (some routerChunk) "name")
        routerDomain :=
          jsonObjectGetString (jsonObjectGetKeyConst (some routerChunk) "domain") }) :
    (∀ members items,
        jsonObjectGetKeyConst (some routerChunk) "services" = some (.hash members) →
        jsonObjectGetKeyConst (some (.hash members)) "service" = some (.array items) →
        osrf_prefork_parse_router_chunk appname routerChunk
          = List.replicate
              (items.countP (fun item => jsonObjectGetString (some item) = some appname))
              reg)
    ∧ (∀ members s,
        jsonObjectGetKeyConst (some routerChunk) "services" = some (.hash members) →
        jsonObjectGetKeyConst (some (.hash members)) "service" = some (.string s) →
        osrf_prefork_parse_router_chunk appname routerChunk
          = if appname = s then [reg] else [])
    ∧ (∀ members,
        jsonObjectGetKeyConst (some routerChunk) "services" = some (.hash members) →
        (∀ items, jsonObjectGetKeyConst (some (.hash members)) "service"
          ≠ some (.array items)) →
        (∀ s, jsonObjectGetKeyConst (some (.hash members)) "service" ≠ some (.string s)) →
        osrf_prefork_parse_router_chunk appname routerChunk = [])
    ∧ ((∀ members,
          jsonObjectGetKeyConst (some routerChunk) "services" ≠ some (.hash members)) →
        osrf_prefork_parse_router_chunk appname routerChunk = [reg]) := by
  subst hreg
  refine ⟨?_, ?_, ?_, ?_⟩
  · intro members items h1 h2
    unfold osrf_prefork_parse_router_chunk
    simp only [h1, h2]
    exact register_listed_eq _ _ _
  · intro members s h1 h2
    unfold osrf_prefork_parse_router_chunk
    simp only [h1, h2]
  · intro members h1 h2 h3
    unfold osrf_prefork_parse_router_chunk
    simp only [h1]
    cases hs : jsonObjectGetKeyConst (some (jsonObject.hash members)) "service" with
    | none => rfl
    | some so =>
      cases so with
      | array items => exact absurd hs (h2 items)
      | string s => exact absurd hs (h3 s)
      | null => rfl
      | bool b => rfl
      | number t => rfl
      | hash m => rfl
  · intro h
    unfold osrf_prefork_parse_router_chunk
    cases hs : jsonObjectGetKeyConst (some routerChunk) "services" with
    | none => rfl
    | some so =>
      cases so with
      | hash m => exact absurd hs (h m)
      | array items => rfl
      | string s => rfl
      | null => rfl
      | bool b => rfl
      | number t => rfl

/-- C18 as amended, for an entry whose `services` lists `opensrf.settings` and
`opensrf.math`. -/
theorem router_chunk_registrations_witness :
    osrf_prefork_parse_router_chunk "opensrf.math"
        (router_chunk (some (.hash [("service",
          .array [.string "opensrf.settings", .string "opensrf.math"])])))
      = List.replicate
          ([jsonObject.string "opensrf.settings", jsonObject.string "opensrf.math"].countP
            (fun item => jsonObjectGetString (some item) = some "opensrf.math"))
          math_registration :=
  (router_chunk_registrations "opensrf.math"
    (router_chunk (some (.hash [("service",
      .array [.string "opensrf.settings", .string "opensrf.math"])])))
    math_registration (by decide)).1
    [("service", .array [.string "opensrf.settings", .string "opensrf.math"])]
    [.string "opensrf.settings", .string "opensrf.math"] (by rfl) (by rfl)

/-- C18 as stated fails: an entry whose `services` is a hash without a `service` member
(present, listing no names) gets no registration at all, and an entry that lists the
application twice gets two. -/
theorem router_chunk_without_service_member_is_not_registered :
    osrf_prefork_parse_router_chunk "opensrf.math" (router_chunk (some (.hash []))) = []
    ∧ osrf_prefork_parse_router_chunk "opensrf.math"
        (router_chunk (some (.hash [("service",
          .array [.string "opensrf.math", .string "opensrf.math"])])))
      = [math_registration, math_registration] := by
  decide

/-! ### Ready and dead workers -/

/-- C19 (code at the failing input).  Two workers are busy, record 0 at the head of
the ring.  When only the second is ready it is pushed onto the idle stack without being
unlinked: record 1 stays reachable from the head of the ring and the next
`check_children` follows its NULL link.  When both are ready the loop follows the NULL
link that the first move left in `cur_child->next`. -/
theorem check_children_mishandles_ready_children :
    summary (check_children (two_active_pool [(1, [9])] [false, false]) false)
      = some (2, [0, 1], [1], [], [])
    ∧ fault_of (check_children
        (two_active_pool [(1, [9]), (0, [])] [false, false, false, false]) false
          >>= fun forker => check_children forker false)
      = some Fault.null_deref
    ∧ fault_of (check_children (two_active_pool [(2, [5, 9])] [false, false]) false)
      = some Fault.null_deref := by
  decide

/-- C20 (code at the failing input).  A pool is set up with `min_children = 1` and
launches its worker (pid 100, record 0) onto the idle stack; the active ring is empty.
The worker terminates.  The first loop of `reap_children` takes the counter from 1 to 0
and leaves the record on the idle stack, not on the free list.  When `reap_children`
returns, record 0 still holds pid 100 and is still on the idle stack, under the
replacement, and not on the free list. -/
theorem reap_leaves_idle_record_when_ring_is_empty :
    summary (prefork_launch_children (small_pool [] [100, 0] [] []))
      = some (1, [], [0], [], [])
    ∧ summary (prefork_launch_children (small_pool [] [100, 0] [] [])
        >>= fun forker => reap_bury (forker.waits.length + 1) forker)
      = some (0, [], [0], [], [])
    ∧ (match prefork_launch_children (small_pool [] [100, 0] [] []) >>= reap_children with
      | .error _ => none
      | .ok f =>
        some (f.heap[0]?.map prefork_child.pid, decide (0 ∈ active_ring f),
          decide (0 ∈ idle_stack f), decide (0 ∈ free_stack f)))
      = some (some 100, false, true, false) := by
  refine ⟨by decide, by decide, by decide⟩

/-! ### Entry of the keepalive loop -/

theorem keepalive_loop_waits (keepalive : Int) (ws : List WaitResult)
    (out : List WorkerEvent) (n : Nat)
    (h : keepalive_loop keepalive ws [] 0 = some (out, n)) :
    WorkerEvent.queue_wait keepalive ∈ out := by
  obtain ⟨w, hn, _, hout⟩ := keepalive_loop_exit keepalive ws [] 0 out n h
  rw [hout]
  have e : n - 0 = (n - 1) + 1 := by omega
  rw [e, List.replicate_succ]
  simp

/-- C22 as amended.  When `prefork_child_process_request` returns, it has made no queue
wait if the session layer gave no session or gave one that is stateless and not
connected, and it has made a queue wait with the child's keepalive for every other
session, stateful or connected. -/
theorem queue_wait_skipped_only_for_stateless_unconnected (child : prefork_child)
    (client_connected bootstrap : Bool) (session : Option Session)
    (waits : List WaitResult) (out : List WorkerEvent)
    (h : prefork_child_process_request child client_connected bootstrap session waits
      = some out) :
    ((session = none ∨ ∃ s, session = some s ∧ s.stateless = true ∧ s.connected = false) →
        ∀ t, WorkerEvent.queue_wait t ∉ out)
    ∧ ((client_connected = true ∨ bootstrap = true) →
        (∃ s, session = some s ∧ (s.stateless = false ∨ s.connected = true)) →
        WorkerEvent.queue_wait child.keepalive ∈ out) := by
  unfold prefork_child_process_request at h
  constructor
  · intro hs t
    split at h
    · cases h
      simp
    · rcases hs with rfl | ⟨s, rfl, h1, h2⟩
      · cases h
        simp
      · simp only [h1, h2, and_self, if_true] at h
        cases h
        simp
  · intro hc ⟨s, hs, hsc⟩
    subst hs
    have hex : ¬ (client_connected = false ∧ bootstrap = false) := by
      rcases hc with hc | hc <;> simp [hc]
    have hskip : ¬ (s.stateless = true ∧ s.connected = false) := by
      rcases hsc with hsc | hsc <;> simp [hsc]
    simp only [hex, if_false, hskip] at h
    cases hk : keepalive_loop child.keepalive waits [] 0 with
    | none => rw [hk] at h; cases h
    | some r =>
      obtain ⟨ev, n⟩ := r
      rw [hk] at h
      cases h
      have := keepalive_loop_waits child.keepalive waits ev n hk
      simp [this]

/-- C22 as amended, for a stateless session that is connected: one queue wait is made. -/
theorem queue_wait_skipped_only_for_stateless_unconnected_witness :
    WorkerEvent.queue_wait 5 ∈ [WorkerEvent.queue_wait 5, WorkerEvent.session_free] :=
  (queue_wait_skipped_only_for_stateless_unconnected
    { pid := 100, read_data_fd := 3, write_data_fd := 4, read_status_fd := 5
      write_status_fd := 6, max_requests := 1000, appname := some "opensrf.math"
      keepalive := 5, next := none, prev := none }
    true true (some ⟨true, true⟩) [WaitResult.mk 10 1 0 10 true]
    [WorkerEvent.queue_wait 5, WorkerEvent.session_free] (by decide)).2
    (Or.inl rfl) ⟨⟨true, true⟩, rfl, Or.inr rfl⟩

/-- C22 as stated fails: for a session that is stateless but connected, and for one that
is stateful but not connected, `prefork_child_process_request` makes a queue wait. -/
theorem queue_wait_made_for_stateless_connected_session :
    prefork_child_process_request
        { pid := 100, read_data_fd := 3, write_data_fd := 4, read_status_fd := 5
          write_status_fd := 6, max_requests := 1000, appname := some "opensrf.math"
          keepalive := 5, next := none, prev := none }
        true true (some ⟨true, true⟩) [WaitResult.mk 10 1 0 10 true]
      = some [WorkerEvent.queue_wait 5, WorkerEvent.session_free]
    ∧ prefork_child_process_request
        { pid := 100, read_data_fd := 3, write_data_fd := 4, read_status_fd := 5
          write_status_fd := 6, max_requests := 1000, appname := some "opensrf.math"
          keepalive := 5, next := none, prev := none }
        true true (some ⟨false, false⟩) [WaitResult.mk 10 0 0 10 false]
      = some [WorkerEvent.queue_wait 5, WorkerEvent.session_free] := by
  decide

/-! ### Expiry of an absent key -/

/-- C23.  For a `md5sum` that returns 32 hexadecimal digits and a key whose cleaned
form has no entry, `osrfCacheSetExpire` returns -1 after a single `memcached_get`: it
makes no `memcached_set` call and the entries are what they were, whatever the library
returns. -/
theorem set_expire_on_absent_key_writes_nothing (md5sum : List Nat → List Nat)
    (hmd5 : hex32 md5sum) (jsonObjectToJSON : jsonObject → List Nat)
    (jsonParse : List Nat → Option jsonObject) (cache : osrf_cache)
    (rc_get rc_set seconds : Int) (key : List Nat)
    (habs : lookup_entry cache.entries (_clean_key md5sum key) = none) :
    osrfCacheSetExpire md5sum jsonObjectToJSON jsonParse cache rc_get rc_set seconds
        (some key)
      = (-1, { cache with calls := cache.calls ++ [CacheCall.get (_clean_key md5sum key)] })
    ∧ (osrfCacheSetExpire md5sum jsonObjectToJSON jsonParse cache rc_get rc_set seconds
        (some key)).2.entries = cache.entries
    ∧ ∀ k v t, CacheCall.set k v t ∉
        (osrfCacheSetExpire md5sum jsonObjectToJSON jsonParse cache rc_get rc_set seconds
          (some key)).2.calls.drop cache.calls.length := by
  have hidem := clean_key_idempotent md5sum hmd5 key
  have hdata : (if rc_get = MEMCACHED_SUCCESS
      then lookup_entry cache.entries (_clean_key md5sum key) else none) = none := by
    rw [habs]
    simp
  have e : osrfCacheSetExpire md5sum jsonObjectToJSON jsonParse cache rc_get rc_set seconds
        (some key)
      = (-1, { cache with
                calls := cache.calls ++ [CacheCall.get (_clean_key md5sum key)] }) := by
    unfold osrfCacheSetExpire osrfCacheGetObject memcached_get
    simp only [hidem, hdata]
    rfl
  refine ⟨e, ?_, ?_⟩
  · rw [e]
  · intro k v t
    rw [e]
    simp

/-- C23 for the key `k` on an empty cache. -/
theorem set_expire_on_absent_key_writes_nothing_witness :
    osrfCacheSetExpire md5sum (fun _ => []) (fun _ => none) ⟨3600, [], []⟩ 0 0 60
        (some [107])
      = (-1, { (⟨3600, [], []⟩ : osrf_cache) with
                calls := [] ++ [CacheCall.get (_clean_key md5sum [107])] })
    ∧ (osrfCacheSetExpire md5sum (fun _ => []) (fun _ => none) ⟨3600, [], []⟩ 0 0 60
        (some [107])).2.entries = []
    ∧ ∀ k v t, CacheCall.set k v t ∉
        (osrfCacheSetExpire md5sum (fun _ => []) (fun _ => none) ⟨3600, [], []⟩ 0 0 60
          (some [107])).2.calls.drop ([] : List CacheCall).length :=
  set_expire_on_absent_key_writes_nothing md5sum md5sum_hex32 (fun _ => []) (fun _ => none)
    ⟨3600, [], []⟩ 0 0 60 [107] (by decide)

/-! ### A pool without idle workers -/

theorem store_eq {f g : prefork_simple} {p : Ptr} {c : prefork_child}
    (h : store f p c = .ok g) : g = { f with heap := g.heap } := by
  unfold store at h
  split at h
  · cases h
  · split at h
    · cases h
      rfl
    · cases h

theorem launch_child_failed {f g : prefork_simple} {p : Ptr} {r : SpawnResult}
    {rest : List SpawnResult} (hs : f.spawns = r :: rest) (hr : spawn_failed r = true)
    (h : launch_child f = .ok (p, g)) :
    g.idle_list = f.idle_list ∧ g.spawns = rest
      ∧ g.current_num_children = f.current_num_children := by
  unfold launch_child at h
  rw [hs] at h
  simp only at h
  cases r with
  | data_pipe_error =>
    cases h
    exact ⟨rfl, rfl, rfl⟩
  | status_pipe_error d0 d1 =>
    cases h
    exact ⟨rfl, rfl, rfl⟩
  | forked d0 d1 s0 s1 pid =>
    have hneg : pid < 0 := by simpa [spawn_failed] using hr
    simp only at h
    obtain ⟨⟨child, f1⟩, h1, hk⟩ := bind_ok h
    simp only [hneg, if_true] at hk
    obtain ⟨f2, h2, hk⟩ := bind_ok hk
    cases hk
    -- prefork_child_init
    have a : f1.idle_list = f.idle_list ∧ f1.spawns = rest
        ∧ f1.current_num_children = f.current_num_children := by
      unfold prefork_child_init at h1
      split at h1
      · obtain ⟨c, _, h1⟩ := bind_ok h1
        obtain ⟨f3, h3, h1⟩ := bind_ok h1
        cases h1
        rw [store_eq h3]
        exact ⟨rfl, rfl, rfl⟩
      · cases h1
        exact ⟨rfl, rfl, rfl⟩
    -- prefork_child_free
    have b : g.idle_list = f1.idle_list ∧ g.spawns = f1.spawns
        ∧ g.current_num_children = f1.current_num_children := by
      unfold prefork_child_free at h2
      obtain ⟨c, _, h2⟩ := bind_ok h2
      obtain ⟨f3, h3, h2⟩ := bind_ok h2
      cases h2
      rw [store_eq h3]
      exact ⟨rfl, rfl, rfl⟩
    exact ⟨b.1.trans a.1, b.2.1.trans a.2.1, b.2.2.trans a.2.2⟩

theorem launch_children_all_failed (n : Nat) :
    ∀ {f g : prefork_simple}, prefork_launch_children_loop n f = .ok g →
      (∀ r ∈ f.spawns, spawn_failed r = true) →
      g.idle_list = f.idle_list ∧ g.current_num_children = f.current_num_children := by
  induction n with
  | zero =>
    intro f g h _
    cases h
    exact ⟨rfl, rfl⟩
  | succ n ih =>
    intro f g h hall
    unfold prefork_launch_children_loop at h
    obtain ⟨⟨p, f1⟩, h1, hk⟩ := bind_ok h
    cases hs : f.spawns with
    | nil =>
      unfold launch_child at h1
      rw [hs] at h1
      cases h1
    | cons r rest =>
      have hr : spawn_failed r = true := hall r (by rw [hs]; exact List.mem_cons_self _ _)
      obtain ⟨a1, a2, a3⟩ := launch_child_failed hs hr h1
      have hall1 : ∀ x ∈ f1.spawns, spawn_failed x = true := by
        intro x hx
        rw [a2] at hx
        exact hall x (by rw [hs]; exact List.mem_cons_of_mem _ hx)
      obtain ⟨b1, b2⟩ := ih hk hall1
      exact ⟨b1.trans a1, b2.trans a3⟩

/-- C24.  `prefork_run` hands back, untouched, any pool whose idle list is NULL: no
`client_recv`, no `launch_child`.  That is the pool `prefork_launch_children` leaves
when the accepted `min_children` is not positive, and when every `launch_child` of the
initial launch fails, whatever `max_children` allows. -/
theorem prefork_run_returns_at_once_without_idle_worker :
    (∀ forker : prefork_simple, forker.idle_list = none → prefork_run forker = .ok forker)
    ∧ (∀ (raw : prefork_simple) (max_requests lo hi : Int) (name : Option String)
        (kalive : Int),
        (prefork_simple_init raw max_requests lo hi).1 = 0 → lo ≤ 0 →
        (prefork_launch_children
            { (prefork_simple_init raw max_requests lo hi).2 with
                appname := name, keepalive := kalive } >>= prefork_run)
          = .ok { (prefork_simple_init raw max_requests lo hi).2 with
                    appname := name, keepalive := kalive })
    ∧ (∀ (raw : prefork_simple) (max_requests lo hi : Int) (name : Option String)
        (kalive : Int) (g : prefork_simple),
        (prefork_simple_init raw max_requests lo hi).1 = 0 →
        (∀ r ∈ raw.spawns, spawn_failed r = true) →
        prefork_launch_children
            { (prefork_simple_init raw max_requests lo hi).2 with
                appname := name, keepalive := kalive } = .ok g →
        g.idle_list = none ∧ g.current_num_children = 0 ∧ prefork_run g = .ok g) := by
  have hrun : ∀ forker : prefork_simple, forker.idle_list = none →
      prefork_run forker = .ok forker := by
    intro forker h
    unfold prefork_run
    rw [if_pos h]
  refine ⟨hrun, ?_, ?_⟩
  · intro raw max_requests lo hi name kalive hinit hlo
    have h1 : ¬ lo > hi := by
      intro c
      simp [prefork_simple_init, c] at hinit
    have h2 : ¬ hi > ABS_MAX_CHILDREN := by
      intro c
      simp [prefork_simple_init, h1, c] at hinit
    have hn : lo.toNat = 0 := by omega
    have hl : prefork_launch_children
        { (prefork_simple_init raw max_requests lo hi).2 with
            appname := name, keepalive := kalive }
        = .ok { (prefork_simple_init raw max_requests lo hi).2 with
                  appname := name, keepalive := kalive } := by
      unfold prefork_launch_children
      simp only [prefork_simple_init, h1, h2, if_false, hn]
      rfl
    rw [hl]
    exact hrun _ (by simp [prefork_simple_init, h1, h2])
  · intro raw max_requests lo hi name kalive g hinit hall hl
    have h1 : ¬ lo > hi := by
      intro c
      simp [prefork_simple_init, c] at hinit
    have h2 : ¬ hi > ABS_MAX_CHILDREN := by
      intro c
      simp [prefork_simple_init, h1, c] at hinit
    unfold prefork_launch_children at hl
    obtain ⟨a1, a2⟩ := launch_children_all_failed _ hl
      (by simpa [prefork_simple_init, h1, h2] using hall)
    simp only [prefork_simple_init, h1, h2, if_false] at a1 a2
    exact ⟨a1, a2, hrun g a1⟩

/-- C24 for a pool with bounds 1 and 3 whose one initial `launch_child` fails in
`pipe()`: `prefork_run` returns at once, leaving the waiting message unread, although
three workers could be spawned. -/
theorem prefork_run_returns_at_once_without_idle_worker_witness :
    failed_launch_pool.idle_list = none ∧ failed_launch_pool.current_num_children = 0
      ∧ prefork_run failed_launch_pool = .ok failed_launch_pool :=
  prefork_run_returns_at_once_without_idle_worker.2.2
    (raw_forker [.data_pipe_error] [] [] [] [] [.xml [60]]) 1000 1 3
    (some "opensrf.math") 5 failed_launch_pool (by decide) (by decide) rfl

/-! ### Dispatch to the top of the idle stack -/

theorem deref_some {f : prefork_simple} {a : Nat} {c : prefork_child}
    (h : f.heap[a]? = some c) : deref f (some a) = .ok c := by
  simp [deref, h]

theorem set_next_some {f : prefork_simple} {a : Nat} {c : prefork_child} (v : Ptr)
    (h : f.heap[a]? = some c) :
    set_next f (some a) v = .ok { f with heap := f.heap.set a { c with next := v } } := by
  have hlt : a < f.heap.length := (List.getElem?_eq_some.mp h).1
  unfold set_next
  rw [deref_some h]
  simp [store, hlt, bind, Except.bind]

theorem set_prev_some {f : prefork_simple} {a : Nat} {c : prefork_child} (v : Ptr)
    (h : f.heap[a]? = some c) :
    set_prev f (some a) v = .ok { f with heap := f.heap.set a { c with prev := v } } := by
  have hlt : a < f.heap.length := (List.getElem?_eq_some.mp h).1
  unfold set_prev
  rw [deref_some h]
  simp [store, hlt, bind, Except.bind]

theorem links_set_next {heap : List prefork_child} {a : Nat} {c : prefork_child} (v : Ptr)
    (h : heap[a]? = some c) :
    next_of (heap.set a { c with next := v }) = Function.update (next_of heap) a v
      ∧ prev_of (heap.set a { c with next := v }) = prev_of heap := by
  have hlt : a < heap.length := (List.getElem?_eq_some.mp h).1
  constructor
  · funext b
    by_cases hb : b = a
    · subst hb
      simp [next_of, List.getElem?_set_self hlt]
    · have : a ≠ b := fun e => hb e.symm
      simp [next_of, List.getElem?_set_ne this, Function.update_noteq hb]
  · funext b
    by_cases hb : b = a
    · subst hb
      simp [prev_of, List.getElem?_set_self hlt, h]
    · have : a ≠ b := fun e => hb e.symm
      simp [prev_of, List.getElem?_set_ne this]

theorem links_set_prev {heap : List prefork_child} {a : Nat} {c : prefork_child} (v : Ptr)
    (h : heap[a]? = some c) :
    prev_of (heap.set a { c with prev := v }) = Function.update (prev_of heap) a v
      ∧ next_of (heap.set a { c with prev := v }) = next_of heap := by
  have hlt : a < heap.length := (List.getElem?_eq_some.mp h).1
  constructor
  · funext b
    by_cases hb : b = a
    · subst hb
      simp [prev_of, List.getElem?_set_self hlt]
    · have : a ≠ b := fun e => hb e.symm
      simp [prev_of, List.getElem?_set_ne this, Function.update_noteq hb]
  · funext b
    by_cases hb : b = a
    · subst hb
      simp [next_of, List.getElem?_set_self hlt, h]
    · have : a ≠ b := fun e => hb e.symm
      simp [next_of, List.getElem?_set_ne this]

theorem follows_update {s : Nat → Ptr} {x : Nat} {v : Ptr} (l : List Nat) :
    ∀ {p q : Ptr}, x ∉ l → (follows (Function.update s x v) p l q ↔ follows s p l q) := by
  induction l with
  | nil => intro p q _; rfl
  | cons a rest ih =>
    intro p q hx
    have ha : a ≠ x := fun e => hx (by rw [e]; exact List.mem_cons_self _ _)
    have hrest : x ∉ rest := fun e => hx (List.mem_cons_of_mem _ e)
    simp only [follows, Function.update_noteq ha]
    rw [ih hrest]

theorem follows_append {s : Nat → Ptr} (l m : List Nat) :
    ∀ {p q : Ptr}, follows s p (l ++ m) q ↔ ∃ r, follows s p l r ∧ follows s r m q := by
  induction l with
  | nil =>
    intro p q
    simp only [List.nil_append, follows]
    constructor
    · intro h
      exact ⟨p, rfl, h⟩
    · rintro ⟨r, rfl, h⟩
      exact h
  | cons a rest ih =>
    intro p q
    show (p = some a ∧ follows s (s a) (rest ++ m) q)
      ↔ ∃ r, (p = some a ∧ follows s (s a) rest r) ∧ follows s r m q
    rw [ih]
    constructor
    · rintro ⟨hp, r, h1, h2⟩
      exact ⟨r, ⟨hp, h1⟩, h2⟩
    · rintro ⟨r, ⟨hp, h1⟩, h2⟩
      exact ⟨hp, r, h1, h2⟩

theorem set_next_step (f : prefork_simple) (a : Nat) (v : Ptr) (ha : a < f.heap.length) :
    ∃ heap, set_next f (some a) v = .ok { f with heap := heap }
      ∧ heap.length = f.heap.length
      ∧ next_of heap = Function.update (next_of f.heap) a v
      ∧ prev_of heap = prev_of f.heap := by
  have hc : f.heap[a]? = some f.heap[a] := List.getElem?_eq_getElem ha
  exact ⟨_, set_next_some v hc, by simp, (links_set_next v hc).1, (links_set_next v hc).2⟩

theorem set_prev_step (f : prefork_simple) (a : Nat) (v : Ptr) (ha : a < f.heap.length) :
    ∃ heap, set_prev f (some a) v = .ok { f with heap := heap }
      ∧ heap.length = f.heap.length
      ∧ prev_of heap = Function.update (prev_of f.heap) a v
      ∧ next_of heap = next_of f.heap := by
  have hc : f.heap[a]? = some f.heap[a] := List.getElem?_eq_getElem ha
  exact ⟨_, set_prev_some v hc, by simp, (links_set_prev v hc).1, (links_set_prev v hc).2⟩

/-- What `add_prefork_child` does to an empty ring. -/
theorem add_prefork_child_empty (f : prefork_simple) (a : Nat) (ha : a < f.heap.length)
    (hf : f.first_child = none) :
    ∃ heap, add_prefork_child f (some a)
        = .ok { f with first_child := some a, heap := heap }
      ∧ heap.length = f.heap.length
      ∧ next_of heap = Function.update (next_of f.heap) a (some a)
      ∧ prev_of heap = Function.update (prev_of f.heap) a (some a) := by
  obtain ⟨h1, e1, l1, n1, p1⟩ := set_next_step { f with first_child := some a } a (some a) ha
  obtain ⟨h2, e2, l2, p2, n2⟩ :=
    set_prev_step { f with first_child := some a, heap := h1 } a (some a)
      (by simpa [l1] using ha)
  refine ⟨h2, ?_, by simpa [l1] using l2, ?_, ?_⟩
  · simp only at e1 e2
    unfold add_prefork_child
    simp only [hf, bind, Except.bind, e1, e2]
  · rw [n2]
    exact n1
  · rw [p2]
    simp only
    rw [p1]

/-- What `add_prefork_child` does to a ring whose head is `a0` and whose last record,
the `prev` of the head, is `z`. -/
theorem add_prefork_child_nonempty (f : prefork_simple) (a a0 z : Nat)
    (ha : a < f.heap.length) (ha0 : a0 < f.heap.length) (hz : z < f.heap.length)
    (hf : f.first_child = some a0) (hlast : prev_of f.heap a0 = some z) :
    ∃ heap, add_prefork_child f (some a) = .ok { f with heap := heap }
      ∧ heap.length = f.heap.length
      ∧ next_of heap
          = Function.update (Function.update (next_of f.heap) z (some a)) a (some a0)
      ∧ prev_of heap
          = Function.update (Function.update (prev_of f.heap) a (some z)) a0 (some a) := by
  have hc0 : f.heap[a0]? = some f.heap[a0] := List.getElem?_eq_getElem ha0
  have hprev : (f.heap[a0]).prev = some z := by
    simpa [prev_of, hc0] using hlast
  obtain ⟨h1, e1, l1, n1, p1⟩ := set_next_step f z (some a) hz
  obtain ⟨h2, e2, l2, p2, n2⟩ :=
    set_prev_step { f with heap := h1 } a (some z) (by simpa [l1] using ha)
  obtain ⟨h3, e3, l3, n3, p3⟩ :=
    set_next_step { f with heap := h2 } a (some a0) (by simpa [l2, l1] using ha)
  obtain ⟨h4, e4, l4, p4, n4⟩ :=
    set_prev_step { f with heap := h3 } a0 (some a) (by simpa [l3, l2, l1] using ha0)
  refine ⟨h4, ?_, ?_, ?_, ?_⟩
  · simp only [hf] at e1 e2 e3 e4
    unfold add_prefork_child
    simp only [hf, bind, Except.bind, deref_some hc0, hprev, e1, e2, e3, e4]
  · simp only at l2 l3 l4
    omega
  · rw [n4]
    simp only
    rw [n3]
    simp only
    rw [n2]
    simp only
    rw [n1]
  · rw [p4]
    simp only
    rw [p3]
    simp only
    rw [p2]
    simp only
    rw [p1]

theorem nodup_length_le (l : List Nat) (n : Nat) (hn : l.Nodup) (hb : ∀ a ∈ l, a < n) :
    l.length ≤ n := by
  have hsub : l ⊆ List.range n := fun a ha => List.mem_range.mpr (hb a ha)
  have := (List.Nodup.subperm hn hsub).length_le
  simpa using this

theorem list_members_of_follows (heap : List prefork_child) (l : List Nat) :
    ∀ (p : Ptr) (fuel : Nat), follows (next_of heap) p l none →
      (∀ a ∈ l, a < heap.length) → l.length ≤ fuel → list_members heap fuel p = l := by
  induction l with
  | nil =>
    intro p fuel hp _ _
    simp only [follows] at hp
    subst hp
    exact list_members_null heap fuel
  | cons a rest ih =>
    intro p fuel hp hv hlen
    obtain ⟨rfl, hrest⟩ := hp
    have ha : a < heap.length := hv a (List.mem_cons_self _ _)
    have hc : heap[a]? = some heap[a] := List.getElem?_eq_getElem ha
    cases fuel with
    | zero => simp at hlen
    | succ k =>
      have hn : next_of heap a = (heap[a]).next := by simp [next_of, hc]
      rw [hn] at hrest
      simp only [list_members, hc]
      rw [ih _ k hrest (fun b hb => hv b (List.mem_cons_of_mem _ hb))
        (by simpa using hlen)]

theorem ring_members_of_follows (heap : List prefork_child) (a0 : Nat) (m : List Nat) :
    ∀ (x : Nat) (fuel : Nat), follows (next_of heap) (some x) (x :: m) (some a0) →
      a0 ∉ m → (∀ a ∈ x :: m, a < heap.length) → (x :: m).length ≤ fuel →
      ring_members heap (some a0) fuel (some x) = x :: m := by
  induction m with
  | nil =>
    intro x fuel hp _ hv hlen
    have hx : x < heap.length := hv x (List.mem_cons_self _ _)
    have hc : heap[x]? = some heap[x] := List.getElem?_eq_getElem hx
    have hn : (heap[x]).next = some a0 := by
      have := hp.2
      simpa [follows, next_of, hc] using this
    cases fuel with
    | zero => simp at hlen
    | succ k => simp [ring_members, hc, hn]
  | cons y rest ih =>
    intro x fuel hp hnot hv hlen
    have hx : x < heap.length := hv x (List.mem_cons_self _ _)
    have hc : heap[x]? = some heap[x] := List.getElem?_eq_getElem hx
    have hp2 := hp.2
    have hn : (heap[x]).next = some y := by
      have := hp2.1
      simpa [next_of, hc] using this
    have hy : y ≠ a0 := fun e => hnot (by rw [e]; exact List.mem_cons_self _ _)
    have hne : ¬ (heap[x]).next = some a0 := by
      rw [hn]
      intro e
      exact hy (Option.some.inj e)
    cases fuel with
    | zero => simp at hlen
    | succ k =>
      have hrec := ih y k ⟨rfl, hp2.2⟩ (fun e => hnot (List.mem_cons_of_mem _ e))
        (fun b hb => hv b (List.mem_cons_of_mem _ hb)) (by simpa using hlen)
      have hne2 : ¬ (some y : Ptr) = some a0 := fun e => hy (Option.some.inj e)
      simp only [ring_members, hc, hn, hne2, if_false]
      rw [hrec]

theorem idle_stack_of_is_idle_stack {f : prefork_simple} {l : List Nat}
    (h : is_idle_stack f l) : idle_stack f = l :=
  list_members_of_follows f.heap l f.idle_list f.heap.length h.1 h.2.1
    (nodup_length_le l _ h.2.2 h.2.1)

theorem active_ring_of_is_active_ring {f : prefork_simple} {l : List Nat}
    (h : is_active_ring f l) : active_ring f = l := by
  cases l with
  | nil =>
    have hf : f.first_child = none := h
    unfold active_ring
    rw [hf]
    exact ring_members_null _ _ _
  | cons a t =>
    obtain ⟨hf, hv, hn, hp, _⟩ := h
    unfold active_ring
    rw [hf]
    exact ring_members_of_follows f.heap a t a f.heap.length hp
      (List.nodup_cons.mp hn).1 hv (nodup_length_le _ _ hn hv)

/-- The last record of a well-formed ring is the `prev` of its head. -/
theorem ring_last {f : prefork_simple} {a0 : Nat} {t : List Nat}
    (h : is_active_ring f (a0 :: t)) :
    ∃ init z, a0 :: t = init ++ [z] ∧ prev_of f.heap a0 = some z := by
  obtain ⟨_, _, _, _, hp⟩ := h
  have hp2 := hp.2
  rcases List.eq_nil_or_concat t with rfl | ⟨L, b, rfl⟩
  · refine ⟨[], a0, rfl, ?_⟩
    simpa [follows] using hp2
  · refine ⟨a0 :: L, b, by simp, ?_⟩
    rw [List.concat_eq_append, List.reverse_append] at hp2
    exact hp2.1

theorem dispatch_idle_step (f : prefork_simple) (msg_data : List Nat) (n : Nat)
    (cur : Ptr) (a : Nat) (written : Int) (ws : List Int) (heap : List prefork_child)
    (c : prefork_child) (g : prefork_simple)
    (hil : f.idle_list = some a) (hc : f.heap[a]? = some c)
    (hw : f.writes = written :: ws) (hok : 0 ≤ written)
    (e1 : set_next { f with idle_list := c.next } (some a) none
      = .ok { f with idle_list := c.next, heap := heap })
    (hg : add_prefork_child
        (log { f with idle_list := c.next, heap := heap, writes := ws }
          (.write c.write_data_fd (msg_data ++ [0]) written)) (some a) = .ok g) :
    dispatch_idle msg_data (n + 1) cur f = .ok (true, some a, g) := by
  have hneg : ¬ written < 0 := by omega
  have hc2 : deref f (some a) = .ok c := deref_some hc
  unfold dispatch_idle
  simp only [hil, bind, Except.bind, hc2, e1]
  simp only [hw, hneg, if_false, hg, pure, Except.pure]

theorem deref_inv {f : prefork_simple} {a : Nat} {c : prefork_child}
    (h : deref f (some a) = .ok c) : f.heap[a]? = some c := by
  unfold deref at h
  simp only at h
  split at h
  · cases h
  · cases h
    assumption

theorem store_next {f g : prefork_simple} {a : Nat} {c : prefork_child}
    (h : store f (some a) c = .ok g) : next_of g.heap a = c.next := by
  unfold store at h
  simp only at h
  split at h
  · cases h
    rename_i hlt
    simp [next_of, List.getElem?_set_self hlt]
  · cases h

/-- The record that `launch_child` returns is the new top of the idle stack, linked to
the former top. -/
theorem launch_child_pushes_on_top {f g : prefork_simple} {p : Nat}
    (h : launch_child f = .ok (some p, g)) :
    g.idle_list = some p ∧ next_of g.heap p = f.idle_list := by
  unfold launch_child at h
  split at h
  · cases h
  · dsimp only at h
    split at h
    · cases h
    · cases h
    · obtain ⟨⟨child, f1⟩, h1, hk⟩ := bind_ok h
      dsimp only at hk
      have hidle1 : f1.idle_list = f.idle_list := by
        unfold prefork_child_init at h1
        split at h1
        · obtain ⟨c, _, h1⟩ := bind_ok h1
          obtain ⟨f3, h3, h1⟩ := bind_ok h1
          cases h1
          rw [store_eq h3]
          rfl
        · cases h1
          rfl
      split at hk
      · obtain ⟨f2, h2, hk⟩ := bind_ok hk
        cases hk
      · obtain ⟨f2, h2, hk⟩ := bind_ok hk
        split at hk
        · obtain ⟨c, hc, hk⟩ := bind_ok hk
          obtain ⟨f3, h3, hk⟩ := bind_ok hk
          cases hk
          -- the link written by child->next = forker->idle_list
          obtain ⟨c1, hp1⟩ : ∃ c1, f1.heap[p]? = some c1 := by
            unfold set_next at h2
            obtain ⟨c1, hc1, _⟩ := bind_ok h2
            exact ⟨c1, deref_inv hc1⟩
          rw [set_next_some f1.idle_list hp1] at h2
          cases h2
          have hlt : p < f1.heap.length := (List.getElem?_eq_some.mp hp1).1
          have hc2 := deref_inv hc
          simp only [List.getElem?_set_self hlt] at hc2
          cases hc2
          refine ⟨by rw [store_eq h3], ?_⟩
          rw [store_next h3]
          exact hidle1
        · cases hk



/-- Let the idle stack of a pool be the chain `a :: rest`, its active list the two-way
ring `ring`, the two without a common record, and let the write return a non-negative
value.  The loop `while( forker->idle_list )` of `prefork_run` then makes one write, of
the message bytes and one NUL, on the request pipe of record `a`; afterwards the idle
stack is `rest`, in the same order, and the active ring is `ring` with `a` at its tail.
Nothing here says that `check_children` hands such a pool to the loop. -/
theorem dispatch_idle_on_well_formed_pool (f : prefork_simple) (msg_data : List Nat)
    (n : Nat) (cur : Ptr) (a : Nat) (rest ring : List Nat) (written : Int)
    (ws : List Int)
    (hidle : is_idle_stack f (a :: rest)) (hring : is_active_ring f ring)
    (hdisj : ∀ x ∈ a :: rest, x ∉ ring)
    (hw : f.writes = written :: ws) (hok : 0 ≤ written) :
    idle_stack f = a :: rest ∧ active_ring f = ring
    ∧ ∃ g c, f.heap[a]? = some c
      ∧ dispatch_idle msg_data (n + 1) cur f = .ok (true, some a, g)
      ∧ g.events = f.events ++ [Event.write c.write_data_fd (msg_data ++ [0]) written]
      ∧ (msg_data ++ [0]).length = msg_data.length + 1
      ∧ is_idle_stack g rest ∧ is_active_ring g (ring ++ [a])
      ∧ idle_stack g = rest ∧ active_ring g = ring ++ [a] := by
  refine ⟨idle_stack_of_is_idle_stack hidle, active_ring_of_is_active_ring hring, ?_⟩
  obtain ⟨hfol, hval, hnd⟩ := hidle
  obtain ⟨hil, hfrest⟩ := hfol
  have ha : a < f.heap.length := hval a (List.mem_cons_self _ _)
  have hc : f.heap[a]? = some f.heap[a] := List.getElem?_eq_getElem ha
  have hnx : next_of f.heap a = (f.heap[a]).next := by simp [next_of, hc]
  rw [hnx] at hfrest
  have harest : a ∉ rest := (List.nodup_cons.mp hnd).1
  have hndrest : rest.Nodup := (List.nodup_cons.mp hnd).2
  have hvrest : ∀ b ∈ rest, b < f.heap.length :=
    fun b hb => hval b (List.mem_cons_of_mem _ hb)
  have haring : a ∉ ring := hdisj a (List.mem_cons_self _ _)
  obtain ⟨h1, e1, l1, n1, p1⟩ :=
    set_next_step { f with idle_list := (f.heap[a]).next } a none ha
  simp only at e1 l1 n1 p1
  have key : ∀ g, add_prefork_child
        (log { f with idle_list := (f.heap[a]).next, heap := h1, writes := ws }
          (.write (f.heap[a]).write_data_fd (msg_data ++ [0]) written)) (some a) = .ok g →
      g.idle_list = (f.heap[a]).next →
      g.events = f.events
        ++ [Event.write (f.heap[a]).write_data_fd (msg_data ++ [0]) written] →
      g.heap.length = f.heap.length →
      follows (next_of g.heap) (f.heap[a]).next rest none →
      is_active_ring g (ring ++ [a]) →
      ∃ g c, f.heap[a]? = some c
        ∧ dispatch_idle msg_data (n + 1) cur f = .ok (true, some a, g)
        ∧ g.events = f.events ++ [Event.write c.write_data_fd (msg_data ++ [0]) written]
        ∧ (msg_data ++ [0]).length = msg_data.length + 1
        ∧ is_idle_stack g rest ∧ is_active_ring g (ring ++ [a])
        ∧ idle_stack g = rest ∧ active_ring g = ring ++ [a] := by
    intro g hg hgi hge hgl hgf hgr
    have hst : is_idle_stack g rest := by
      refine ⟨?_, ?_, hndrest⟩
      · rw [hgi]
        exact hgf
      · intro b hb
        rw [hgl]
        exact hvrest b hb
    exact ⟨g, f.heap[a], hc,
      dispatch_idle_step f msg_data n cur a written ws h1 _ g hil hc hw hok e1 hg,
      hge, by simp, hst, hgr, idle_stack_of_is_idle_stack hst,
      active_ring_of_is_active_ring hgr⟩
  cases ring with
  | nil =>
    have hf : f.first_child = none := hring
    obtain ⟨h2, e2, l2, n2, p2⟩ := add_prefork_child_empty
      (log { f with idle_list := (f.heap[a]).next, heap := h1, writes := ws }
        (.write (f.heap[a]).write_data_fd (msg_data ++ [0]) written)) a
      (by simpa [log, l1] using ha) hf
    simp only [log] at l2 n2 p2
    refine key _ e2 rfl rfl (by simpa [l1] using l2) ?_ ?_
    · show follows (next_of h2) _ rest none
      rw [n2, n1, follows_update rest harest, follows_update rest harest]
      exact hfrest
    · show is_active_ring _ [a]
      refine ⟨rfl, ?_, by simp, ?_, ?_⟩
      · intro b hb
        show b < h2.length
        rw [l2, l1]
        rcases List.mem_singleton.mp hb with rfl
        exact ha
      · show follows (next_of h2) (some a) [a] (some a)
        rw [n2]
        exact ⟨rfl, by simp [follows]⟩
      · show follows (prev_of h2) (some a) [a] (some a)
        rw [p2]
        exact ⟨rfl, by simp [follows]⟩
  | cons a0 t =>
    obtain ⟨init, z, hsplit, hlast⟩ := ring_last hring
    obtain ⟨hf, hrv, hrn, hrnext, hrprev⟩ := hring
    have ha0 : a0 < f.heap.length := hrv a0 (List.mem_cons_self _ _)
    have hzmem : z ∈ a0 :: t := by rw [hsplit]; simp
    have hz : z < f.heap.length := hrv z hzmem
    have haz : a ≠ z := fun e => haring (by rw [e]; exact hzmem)
    have haa0 : a ≠ a0 := fun e => haring (by rw [e]; exact List.mem_cons_self _ _)
    have hzrest : z ∉ rest := fun e => hdisj z (List.mem_cons_of_mem _ e) hzmem
    have hnd2 : (init ++ [z]).Nodup := by rw [← hsplit]; exact hrn
    have hzinit : z ∉ init := by
      intro e
      have := List.nodup_append.mp hnd2
      exact this.2.2 e (by simp)
    have hainit : a ∉ init := fun e => haring (by rw [hsplit]; simp [e])
    have hat : a ∉ t := fun e => haring (List.mem_cons_of_mem _ e)
    have ha0t : a0 ∉ t := (List.nodup_cons.mp hrn).1
    obtain ⟨h2, e2, l2, n2, p2⟩ := add_prefork_child_nonempty
      (log { f with idle_list := (f.heap[a]).next, heap := h1, writes := ws }
        (.write (f.heap[a]).write_data_fd (msg_data ++ [0]) written)) a a0 z
      (by simpa [log, l1] using ha) (by simpa [log, l1] using ha0)
      (by simpa [log, l1] using hz) hf (by simpa [log, p1] using hlast)
    simp only [log] at l2 n2 p2
    refine key _ e2 rfl rfl (by simpa [l1] using l2) ?_ ?_
    · show follows (next_of h2) _ rest none
      rw [n2, n1, follows_update rest harest, follows_update rest hzrest,
        follows_update rest harest]
      exact hfrest
    · show is_active_ring _ (a0 :: (t ++ [a]))
      refine ⟨hf, ?_, ?_, ?_, ?_⟩
      · intro b hb
        show b < h2.length
        rw [l2, l1]
        rcases List.mem_cons.mp hb with rfl | hb
        · exact ha0
        · rcases List.mem_append.mp hb with hb | hb
          · exact hrv b (List.mem_cons_of_mem _ hb)
          · rcases List.mem_singleton.mp hb with rfl
            exact ha
      · have : a0 :: (t ++ [a]) = (a0 :: t) ++ [a] := rfl
        rw [this]
        exact List.Nodup.append hrn (by simp) (by
          intro x hx hx2
          rcases List.mem_singleton.mp hx2 with rfl
          exact haring hx)
      · show follows (next_of h2) (some a0) (a0 :: (t ++ [a])) (some a0)
        have e : a0 :: (t ++ [a]) = init ++ [z, a] := by
          have : a0 :: (t ++ [a]) = (a0 :: t) ++ [a] := rfl
          rw [this, hsplit]
          simp
        rw [e, follows_append]
        rw [hsplit, follows_append] at hrnext
        obtain ⟨r, hr1, hr2⟩ := hrnext
        obtain ⟨rfl, hr3⟩ := hr2
        have hr4 : next_of f.heap z = some a0 := hr3
        refine ⟨some z, ?_, rfl, ?_, ?_⟩
        · rw [n2, n1, follows_update init hainit, follows_update init hzinit,
            follows_update init hainit]
          exact hr1
        · rw [n2, Function.update_noteq (fun e => haz e.symm), Function.update_same]
        · show next_of h2 a = some a0
          rw [n2, Function.update_same]
      · show follows (prev_of h2) (some a0) (a0 :: (t ++ [a]).reverse) (some a0)
        rw [List.reverse_append]
        have hpa : prev_of h2 a = some z := by
          rw [p2, Function.update_noteq haa0, Function.update_same]
        refine ⟨rfl, ?_, ?_⟩
        · rw [p2, Function.update_same]
        · show follows (prev_of h2) (prev_of h2 a) t.reverse (some a0)
          have hold := hrprev.2
          rw [hlast] at hold
          rw [hpa, p2, follows_update _ (by simpa using ha0t),
            follows_update _ (by simpa using hat), p1]
          exact hold

/-- The idle loop on a pool with idle stack `[2, 1]` and active ring `[0]`: the message
`<` goes to record 2, which joins the ring behind record 0, and record 1 stays idle. -/
theorem dispatch_idle_on_lifo_pool :
    idle_stack lifo_pool = [2, 1] ∧ active_ring lifo_pool = [0]
    ∧ ∃ g c, lifo_pool.heap[2]? = some c
      ∧ dispatch_idle [60] (0 + 1) none lifo_pool = .ok (true, some 2, g)
      ∧ g.events = lifo_pool.events ++ [Event.write c.write_data_fd ([60] ++ [0]) 5]
      ∧ ([60] ++ [0]).length = [60].length + 1
      ∧ is_idle_stack g [1] ∧ is_active_ring g ([0] ++ [2])
      ∧ idle_stack g = [1] ∧ active_ring g = [0] ++ [2] :=
  dispatch_idle_on_well_formed_pool lifo_pool [60] 0 none 2 [1] [0] 5 []
    ⟨⟨rfl, rfl, rfl⟩, by decide, by decide⟩
    ⟨rfl, by decide, by decide, ⟨rfl, rfl⟩, ⟨rfl, rfl⟩⟩
    (by decide) rfl (by decide)

/-- C21 (code at the failing input).  Four workers are launched and three messages are
dispatched: records 3, 2, 1 form the active ring, in that order, record 0 is idle, and
both lists are well formed.  For the fourth message `select` reports the status pipe of
record 2 readable.  `check_children` pushes record 2 onto the idle stack without taking
it off the ring, the message is written to record 2, and `add_prefork_child` links it in
behind the tail.  The idle stack is `[0]` as before, but the ring read from `first_child`
is `[3, 2]`: record 1, a busy worker that is still counted, is on no list. -/
theorem dispatch_to_ready_worker_drops_busy_worker :
    ∃ f g,
      prefork_launch_children
          (four_pool [5, 5, 5, 5] [(0, []), (0, []), (1, [13])] (List.replicate 11 false))
        >>= run_ops [.dispatch [60], .dispatch [60], .dispatch [60]] = .ok f
      ∧ is_idle_stack f [0] ∧ is_active_ring f [3, 2, 1]
      ∧ dispatch [60] f = .ok g
      ∧ g.events = f.events ++ [Event.read 13, Event.write 12 [60, 0] 5]
      ∧ g.current_num_children = 4
      ∧ idle_stack g = [0] ∧ active_ring g = [3, 2] ∧ free_stack g = [] := by
  refine ⟨_, _, rfl, ⟨⟨rfl, rfl⟩, by decide, by decide⟩,
    ⟨rfl, by decide, by decide, ⟨rfl, rfl, rfl, rfl⟩, ⟨rfl, rfl, rfl, rfl⟩⟩, rfl,
    ?_, ?_, ?_, ?_, ?_⟩
  · rfl
  · rfl
  · decide
  · decide
  · decide

end OpenSRF
